import Mathlib

/-!
# icecache: staging, debounce and snapshot pipeline

A shallow embedding of `src/main.go`.  The program keeps its state in package
level variables; here that state is passed explicitly.  The collaborators the
program calls but does not implement (the zstd coder, `archive/tar`, the order
in which Go ranges over a map, the object store, the file-change notifier) are
inputs: the two codecs and the range order are fields of `Env`, the outcome of
`GetObject` and `PutObject` and the notifier's messages are arguments.  Which
directories are watched (the `WalkDir` at the start of `watchAndCache`) decides
which messages the notifier sends, and is part of that input.  The mutex is not
modelled: every function runs as one step.

Paths are kept in cleaned form, as the list of their components below the
root; `/tmp/a/b` is `["tmp", "a", "b"]`.  Time is counted in nanoseconds.
-/

namespace Icecache

/-! ## Basic data -/

abbrev Bytes := List Nat

abbrev Path := List String

/-- The base directory, `basePath = "/tmp"`. -/
def basePath : Path := ["tmp"]

/-- The debounce interval, `flushInterval = 1 * time.Second`, in nanoseconds. -/
def flushInterval : Nat := 1000000000

/-! ## `path/filepath` on component lists -/

/-- One component of `filepath.Clean`: empty and `.` components vanish, `..`
removes the component before it (and stays at the root). -/
def cleanStep (acc : Path) (c : String) : Path :=
  if c = "" ∨ c = "." then acc
  else if c = ".." then acc.dropLast
  else acc ++ [c]

/-- `filepath.Join(base, name)` for a rooted cleaned `base`: the cleaned
concatenation. -/
def filepathJoin (base : Path) (name : List String) : Path :=
  name.foldl cleanStep base

/-- `filepath.Dir` of a rooted cleaned path. -/
def filepathDir (p : Path) : Path := p.dropLast

/-- The walk of `filepath.Rel` over the two component lists: skip the common
leading components, then climb out of what is left of the base and descend
into what is left of the target. -/
def relAux : Path → Path → List String
  | b :: bs, t :: ts =>
    if b = t then relAux bs ts else ((b :: bs).map fun _ => "..") ++ (t :: ts)
  | bs, ts => (bs.map fun _ => "..") ++ ts

/-- `filepath.Rel(base, targ)` for rooted cleaned paths (it cannot fail on
those); equal paths give `.`. -/
def filepathRel (base targ : Path) : List String :=
  match relAux base targ with
  | [] => ["."]
  | r => r

/-! ## `archive/tar` and zstd, as used by the program -/

/-- The type flags of `archive/tar`: the legacy zero flag, regular file,
directory. -/
def TypeRegA : Nat := 0

def TypeReg : Nat := 48

def TypeDir : Nat := 53

/-- The fields of `tar.Header` the program sets or reads. -/
structure Header where
  Name : List String
  Typeflag : Nat
  Mode : Nat
  Size : Nat
deriving DecidableEq

/-- What `tar.Writer.WriteHeader` does to the legacy zero type flag: a name
without a trailing separator (every name `filepath.Rel` returns) becomes a
regular file. -/
def promote (h : Header) : Header :=
  if h.Typeflag = TypeRegA then { h with Typeflag := TypeReg } else h

/-- Where reading a zstd stream failed: in `zstd.NewReader` or in `io.ReadAll`. -/
inductive ZstdError
  | newReader (e : String)
  | readAll (e : String)
deriving DecidableEq

/-- The library behaviour the program runs against.

* `EncodeAll` is `encoder.EncodeAll(b, nil)`.
* `zstdReadAll` is `zstd.NewReader` followed by `io.ReadAll`, with the error
  of the one or of the other.
* `tarWrite es` is the buffer after `WriteHeader(h); Write(d)` for each
  `(h, d)` of `es` in turn, then `Close()`.
* `tarRead b` is what a `tar.Reader` over `b` hands out: the headers returned
  by the successive calls of `Next()`, each with the bytes `io.Copy` obtains
  for it, and how the sequence ends, `none` for `io.EOF` and `some e` for an
  error.
* `mapRange m` is the order in which `range` visits the entries of `m`.
* `umask` is the file mode creation mask of the process. -/
structure Env where
  EncodeAll : Bytes → Bytes
  zstdReadAll : Bytes → Except ZstdError Bytes
  tarWrite : List (Header × Bytes) → Bytes
  tarRead : Bytes → List (Header × Bytes) × Option String
  mapRange : List (Path × Bytes) → List (Path × Bytes)
  umask : Nat

/-! ## The local file system

Nodes are directories and regular files.  The process is not the superuser
and owns the nodes it meets, so the owner bits of a node's mode decide what it
may do.  Running out of space and the like are not modelled. -/

inductive Node
  | dir (mode : Nat)
  | file (data : Bytes) (mode : Nat)
deriving DecidableEq

/-- A file system: the nodes by path, the first binding of a path counts.  The
root always is a directory, which the process may search but not write. -/
abbrev FS := List (Path × Node)

/-- The node at `p`, if any. -/
def fsLookup (fs : FS) (p : Path) : Option Node :=
  if p = [] then some (Node.dir 0o555) else List.lookup p fs

/-- Binding `p` to `n`, in place of what `p` was bound to. -/
def fsSet (fs : FS) (p : Path) (n : Node) : FS :=
  (p, n) :: fs.filter fun e => decide (e.1 ≠ p)

/-- The owner's read bit. -/
def canRead (mode : Nat) : Bool := mode.testBit 8

/-- The owner's write bit. -/
def canWrite (mode : Nat) : Bool := mode.testBit 7

/-- The owner's search bit. -/
def canSearch (mode : Nat) : Bool := mode.testBit 6

/-- The mode of a node created with permission `perm`: its permission bits
without those of the umask. -/
def newMode (umask perm : Nat) : Nat :=
  (perm &&& 0o777) ^^^ ((perm &&& 0o777) &&& umask)

/-- Whether `q` is a directory the process may search. -/
def searchableDir (fs : FS) (q : Path) : Bool :=
  match fsLookup fs q with
  | some (Node.dir mode) => canSearch mode
  | _ => false

/-- Whether the process can walk to `p`: every proper ancestor of `p` is a
directory it may search. -/
def searchable (fs : FS) (p : Path) : Bool :=
  (p.inits.filter fun q => decide (q ≠ p)).all (searchableDir fs)

/-- `os.Stat`: `none` is an error, `some d` an info with `IsDir() = d`.  It
fails where the process cannot walk to `p` and where `p` is missing. -/
def osStat (fs : FS) (p : Path) : Option Bool :=
  if searchable fs p then
    match fsLookup fs p with
    | none => none
    | some (Node.dir _) => some true
    | some (Node.file _ _) => some false
  else none

/-- `os.ReadFile`: the data and whether the error is nil.  It fails where the
process cannot walk to `p` and where `p` is not a file it may read; a failed
read gives no data. -/
def osReadFile (fs : FS) (p : Path) : Bytes × Bool :=
  if searchable fs p then
    match fsLookup fs p with
    | some (Node.file d mode) => if canRead mode then (d, true) else ([], false)
    | _ => ([], false)
  else ([], false)

/-- `os.Mkdir`: fails where `q` exists, where the process cannot walk to it,
and where it may not write the parent directory. -/
def osMkdir (umask : Nat) (fs : FS) (q : Path) (perm : Nat) : Option FS :=
  match fsLookup fs q with
  | some _ => none
  | none =>
    if searchable fs q then
      match fsLookup fs q.dropLast with
      | some (Node.dir mode) =>
        if canWrite mode then some (fsSet fs q (Node.dir (newMode umask perm))) else none
      | _ => none
    else none

/-- The walk of `os.MkdirAll` below `pre`, through the components that are
left: a directory is passed, a file stops the walk with an error, what is
missing is made with `os.Mkdir`. -/
def mkdirFrom (umask perm : Nat) (fs : FS) (pre : Path) : List String → FS × Bool
  | [] => (fs, true)
  | c :: cs =>
    match fsLookup fs (pre ++ [c]) with
    | some (Node.dir _) => mkdirFrom umask perm fs (pre ++ [c]) cs
    | some (Node.file _ _) => (fs, false)
    | none =>
      match osMkdir umask fs (pre ++ [c]) perm with
      | some fs1 => mkdirFrom umask perm fs1 (pre ++ [c]) cs
      | none => (fs, false)

/-- `os.MkdirAll(p, perm)`: the file system afterwards and whether the error is
nil.  (The library recurses from `p` up to the first ancestor that exists and
creates on the way back; on a tree, where what lies below a missing directory
is missing too, that is the walk from the root.) -/
def osMkdirAll (umask : Nat) (fs : FS) (p : Path) (perm : Nat) : FS × Bool :=
  mkdirFrom umask perm fs [] p

/-- `os.Create`, which opens for reading and writing, creates with permission
`0666` and truncates: fails where the process cannot walk to `p`, on a
directory, on a file it may not read and write, and where `p` is missing and
the parent is not a directory it may write. -/
def osCreate (umask : Nat) (fs : FS) (p : Path) : Option FS :=
  if searchable fs p then
    match fsLookup fs p with
    | some (Node.dir _) => none
    | some (Node.file _ mode) =>
      if canRead mode && canWrite mode then some (fsSet fs p (Node.file [] mode)) else none
    | none =>
      match fsLookup fs (filepathDir p) with
      | some (Node.dir mode) =>
        if canWrite mode then some (fsSet fs p (Node.file [] (newMode umask 0o666))) else none
      | _ => none
  else none

/-- Writing `d` through the handle `os.Create` returned for `p`, then closing. -/
def fileWrite (fs : FS) (p : Path) (d : Bytes) : FS :=
  match fsLookup fs p with
  | some (Node.file _ mode) => fsSet fs p (Node.file d mode)
  | _ => fs

/-! ## Restore -/

/-- The loop of `rehydrateFromSingleFile` over the entries the tar reader
hands out; `ending` is the result of the call of `Next()` after the last entry. -/
def extractLoop (umask : Nat) :
    List (Header × Bytes) → Option String → FS → FS × Option String
  | [], ending, fs => (fs, ending)
  | (hdr, body) :: rest, ending, fs =>
    let target := filepathJoin basePath hdr.Name
    if hdr.Typeflag = TypeDir then
      extractLoop umask rest ending (osMkdirAll umask fs target hdr.Mode).1
    else
      let fs1 := (osMkdirAll umask fs (filepathDir target) 0o755).1
      match osCreate umask fs1 target with
      | none => (fs1, some "create")
      | some fs2 => extractLoop umask rest ending (fileWrite fs2 target body)

/-- The function `rehydrateFromSingleFile`; `get` is the outcome of `GetObject`
for the key.  Returns the file system afterwards and the error (`none` for nil). -/
def rehydrateFromSingleFile (env : Env) (get : Except String Bytes) (fs : FS) :
    FS × Option String :=
  match get with
  | .error e => (fs, some ("failed to get object: " ++ e))
  | .ok body =>
    match env.zstdReadAll body with
    | .error (.newReader e) => (fs, some ("failed to initialize ZSTD reader: " ++ e))
    | .error (.readAll e) => (fs, some ("failed to decompress: " ++ e))
    | .ok decoded =>
      let r := env.tarRead decoded
      extractLoop env.umask r.1 r.2 fs

/-! ## Staging and flushing -/

/-- One recorded call of `flushStagedToS3`: when, what archive it built
(`none` when it returned at once on an empty buffer) and whether the put
succeeded. -/
structure FlushRecord where
  time : Nat
  archive : Option (List (Header × Bytes))
  ok : Bool
deriving DecidableEq

/-- The package level state, with the object under `restoreFileKey`, the armed
timers of the runtime, and a record of the flush calls and log lines. -/
structure State where
  stagedFiles : List (Path × Bytes)
  flushTimer : Option Nat
  timers : List Nat
  remote : Option Bytes
  flushes : List FlushRecord
  log : List String
deriving DecidableEq

/-- The assignment `stagedFiles[path] = data`. -/
def mapPut (m : List (Path × Bytes)) (path : Path) (data : Bytes) : List (Path × Bytes) :=
  (path, data) :: m.filter fun e => decide (e.1 ≠ path)

/-- The lookup `stagedFiles[path]`. -/
def mapGet (m : List (Path × Bytes)) (path : Path) : Option Bytes :=
  List.lookup path m

/-- The function `cacheFile`, on the staging map; `disk` is the file system at
the time of the call. -/
def cacheFile (disk : FS) (path : Path) (staged : List (Path × Bytes)) :
    List (Path × Bytes) :=
  match osStat disk path with
  | none => staged
  | some true => staged
  | some false => mapPut staged path (osReadFile disk path).1

/-- The function `scheduleFlush` called at time `now`: stop the timer the
variable holds, arm a new one. -/
def scheduleFlush (now : Nat) (s : State) : State :=
  let live := match s.flushTimer with
    | some d => s.timers.erase d
    | none => s.timers
  { s with timers := live ++ [now + flushInterval],
           flushTimer := some (now + flushInterval) }

/-- The tar entries written by the loop of `flushStagedToS3`. -/
def archiveEntries (env : Env) (staged : List (Path × Bytes)) : List (Header × Bytes) :=
  (env.mapRange staged).map fun e =>
    ({ Name := filepathRel basePath e.1, Typeflag := TypeRegA, Mode := 0o644,
       Size := e.2.length }, e.2)

/-- The function `flushStagedToS3` called at time `now`; `putOk` tells whether
`PutObject` succeeds. -/
def flushStagedToS3 (env : Env) (putOk : Bool) (now : Nat) (s : State) : State :=
  if s.stagedFiles.length = 0 then
    { s with flushes := s.flushes ++ [⟨now, none, true⟩] }
  else
    let entries := archiveEntries env s.stagedFiles
    let compressed := env.EncodeAll (env.tarWrite entries)
    if putOk then
      { s with remote := some compressed, stagedFiles := [],
               flushes := s.flushes ++ [⟨now, some entries, true⟩],
               log := s.log ++ ["Flushed"] }
    else
      { s with flushes := s.flushes ++ [⟨now, some entries, false⟩],
               log := s.log ++ ["Flush failed"] }

/-! ## The watcher loop -/

/-- The operation bits of `fsnotify.Op`. -/
def opCreate : Nat := 1

def opWrite : Nat := 2

def opRemove : Nat := 4

def opRename : Nat := 8

def opChmod : Nat := 16

/-- An `fsnotify.Event`, with the time at which the loop receives it and the
file system as it is then. -/
structure Event where
  time : Nat
  Op : Nat
  Name : Path
  disk : FS
deriving DecidableEq

/-- What the notifier delivers: an event or an error. -/
inductive Msg
  | event (e : Event)
  | error (time : Nat) (err : String)
deriving DecidableEq

/-- When the loop receives the message. -/
def Msg.time : Msg → Nat
  | .event e => e.time
  | .error t _ => t

/-- One round of the `select` in `watchAndCache`. -/
def handleMsg (s : State) : Msg → State
  | .event e =>
    if e.Op &&& (opWrite ||| opCreate) ≠ 0 then
      scheduleFlush e.time { s with stagedFiles := cacheFile e.disk e.Name s.stagedFiles }
    else s
  | .error _ e => { s with log := s.log ++ ["Watcher error: " ++ e] }

/-- The armed timer with deadline `d` fires: it leaves the runtime and its
function, `flushStagedToS3`, runs. -/
def fire (env : Env) (putOk : Nat → Bool) (s : State) (d : Nat) : State :=
  flushStagedToS3 env (putOk d) d { s with timers := s.timers.erase d }

/-- Time passes up to `t`: the armed timers that are due fire. -/
def advance (env : Env) (putOk : Nat → Bool) (t : Nat) (s : State) : State :=
  (s.timers.filter fun d => decide (d ≤ t)).foldl (fire env putOk) s

/-- The process from state `s` on, fed the notifier's messages in order. -/
def watchLoop (env : Env) (putOk : Nat → Bool) (s : State) (msgs : List Msg) : State :=
  msgs.foldl (fun st m => handleMsg (advance env putOk m.time st) m) s

/-- No more messages arrive: every timer still armed fires. -/
def quiesce (env : Env) (putOk : Nat → Bool) (s : State) : State :=
  s.timers.foldl (fire env putOk) s

/-! ## Start-up -/

/-- `GetObject` on the store: a transport failure, a missing key, or the body. -/
def GetObject (netErr : Option String) (remote : Option Bytes) : Except String Bytes :=
  match netErr, remote with
  | some e, _ => .error e
  | none, none => .error "NoSuchKey"
  | none, some b => .ok b

/-- How `main` goes on: `log.Fatalf` ends the process, otherwise the watcher
goroutine is started on the given file system and state. -/
inductive Outcome
  | fatal (msg : String)
  | watching (fs : FS) (s : State)
deriving DecidableEq

/-- The function `main`; the three flags say whether loading the AWS
configuration and creating the zstd encoder and decoder succeed. -/
def main (env : Env) (cfgOk encOk decOk : Bool) (netErr : Option String)
    (remote : Option Bytes) (fs : FS) : Outcome :=
  if !cfgOk then .fatal "Failed to load AWS config"
  else if !encOk then .fatal "Failed to initialize ZSTD encoder"
  else if !decOk then .fatal "Failed to initialize ZSTD decoder"
  else
    let r := rehydrateFromSingleFile env (GetObject netErr remote) fs
    let line := match r.2 with
      | some e => "Warning: failed to rehydrate from file: " ++ e
      | none => "Rehydrated state"
    .watching r.1 ⟨[], none, [], remote, [], [line]⟩

/-! ## Notions the statements use -/

/-- The staging map after `cacheFile` has run for each event in turn. -/
def stageAll (evs : List Event) (m : List (Path × Bytes)) : List (Path × Bytes) :=
  evs.foldl (fun m e => cacheFile e.disk e.Name m) m

/-- The content read at the most recent event of `evs` for the path `p`. -/
def lastWrite (evs : List Event) (p : Path) : Option Bytes :=
  ((evs.filter fun e => decide (e.Name = p)).getLast?).map fun e => (osReadFile e.disk e.Name).1

/-- A qualifying change: a write or create event for a regular file that can
be read. -/
def qualifying (e : Event) : Prop :=
  e.Op &&& (opWrite ||| opCreate) ≠ 0 ∧ osStat e.disk e.Name = some false ∧
    (osReadFile e.disk e.Name).2 = true

/-- The deadline of the timer armed last: `flushInterval` after the last
event, or `d` when there was none. -/
def deadlineAfter (evs : List Event) (d : Nat) : Nat :=
  match evs.getLast? with
  | some e => e.time + flushInterval
  | none => d

/-- Whether `p` is a regular file. -/
def isFileAt (fs : FS) (p : Path) : Bool :=
  match fsLookup fs p with
  | some (Node.file _ _) => true
  | _ => false

/-- Whether `p` is a directory. -/
def isDirAt (fs : FS) (p : Path) : Bool :=
  match fsLookup fs p with
  | some (Node.dir _) => true
  | _ => false

/-- The content of the file at `p`, if `p` is a file. -/
def fileContent (fs : FS) (p : Path) : Option Bytes :=
  match fsLookup fs p with
  | some (Node.file d _) => some d
  | _ => none

/-- A path component as a file system has them: not empty, not `.` or `..`,
without a separator or a zero character, of 255 bytes at most. -/
def validComp (c : String) : Prop :=
  c ≠ "" ∧ c ≠ "." ∧ c ≠ ".." ∧ '/' ∉ c.data ∧ Char.ofNat 0 ∉ c.data ∧
    c.utf8ByteSize ≤ 255

/-- The length of a path in bytes, a separator before each component. -/
def pathBytes (p : Path) : Nat := (p.map fun c => c.utf8ByteSize + 1).sum

/-- A cleaned path strictly below the base directory, of components a file
system has and of 4095 bytes at most. -/
def underBase (p : Path) : Prop :=
  basePath <+: p ∧ p ≠ basePath ∧ (∀ c ∈ p, validComp c) ∧ pathBytes p ≤ 4095

/-- The place where the restore puts an entry. -/
def target (x : Header × Bytes) : Path := filepathJoin basePath x.1.Name

/-- Whether `q` is missing or a directory the process may write and search. -/
def okDir (fs : FS) (q : Path) : Bool :=
  match fsLookup fs q with
  | none => true
  | some (Node.dir mode) => canWrite mode && canSearch mode
  | some (Node.file _ _) => false

/-- Whether `p` is missing or a file the process may read and write. -/
def okFile (fs : FS) (p : Path) : Bool :=
  match fsLookup fs p with
  | none => true
  | some (Node.file _ mode) => canRead mode && canWrite mode
  | some (Node.dir _) => false

/-- Whether the base directory is a directory the process may write and search. -/
def baseReady (fs : FS) : Bool :=
  match fsLookup fs basePath with
  | some (Node.dir mode) => canWrite mode && canSearch mode
  | _ => false

/-- The file system has room for a file at `p`: what lies on the way from the
base directory to `p` is missing or a directory the process may write and
search, and `p` itself is missing or a file it may read and write. -/
def admits (fs : FS) (p : Path) : Prop :=
  (∀ q ∈ p.inits, q ≠ p → q ≠ [] → okDir fs q = true) ∧ okFile fs p = true

/-- The entry the tar reader returns for a staged pair. -/
def toEntry (e : Path × Bytes) : Header × Bytes :=
  (⟨filepathRel basePath e.1, TypeReg, 0o644, e.2.length⟩, e.2)

/-- What `archive/tar` takes for a regular file: the legacy zero flag, the
size of the body, a name of components a file system has. -/
def plainEntry (x : Header × Bytes) : Prop :=
  x.1.Typeflag = TypeRegA ∧ x.1.Size = x.2.length ∧ x.1.Name ≠ [] ∧
    ∀ c ∈ x.1.Name, validComp c

instance (c : String) : Decidable (validComp c) := by
  unfold validComp; infer_instance

instance (p : Path) : Decidable (underBase p) := by
  unfold underBase; infer_instance

instance (fs : FS) (p : Path) : Decidable (admits fs p) := by
  unfold admits; infer_instance

instance (x : Header × Bytes) : Decidable (plainEntry x) := by
  unfold plainEntry; infer_instance

instance (e : Event) : Decidable (qualifying e) := by
  unfold qualifying; infer_instance

/-! ## A small concrete library, for closed examples -/

/-- The first `n` items and the rest, if there are `n`. -/
def takeN : Nat → List Nat → Option (List Nat × List Nat)
  | 0, xs => some ([], xs)
  | _ + 1, [] => none
  | n + 1, x :: xs => (takeN n xs).map fun r => (x :: r.1, r.2)

/-- Reads `k` path components, each a length and that many characters. -/
def readComps : Nat → List Nat → Option (List String × List Nat)
  | 0, xs => some ([], xs)
  | _ + 1, [] => none
  | k + 1, len :: xs =>
    match takeN len xs with
    | none => none
    | some (cs, rest) =>
      (readComps k rest).map fun r => (String.mk (cs.map Char.ofNat) :: r.1, r.2)

/-- Writes the components of a name, behind their number. -/
def writeComps (name : List String) : List Nat :=
  name.length :: name.flatMap fun c => c.data.length :: c.data.map Char.toNat

/-- A toy archive format: per entry the mark 1, type flag, mode, size, name,
body; the mark 0 ends the archive. -/
def demoTarWrite (es : List (Header × Bytes)) : Bytes :=
  (es.flatMap fun e =>
    [1, (promote e.1).Typeflag, e.1.Mode, e.1.Size] ++ writeComps e.1.Name ++ e.2) ++ [0]

/-- The reader of the toy format: entry after entry, until the end mark, the
end of the input, or bytes that are no entry. -/
def demoTarReadAux : Nat → List Nat → List (Header × Bytes) × Option String
  | 0, _ => ([], some "unexpected EOF")
  | _ + 1, [] => ([], none)
  | _ + 1, [0] => ([], none)
  | f + 1, 1 :: flag :: mode :: size :: k :: xs =>
    match readComps k xs with
    | none => ([], some "invalid tar header")
    | some (name, rest) =>
      match takeN size rest with
      | none => ([(⟨name, flag, mode, size⟩, rest)], some "unexpected EOF")
      | some (body, rest2) =>
        let r := demoTarReadAux f rest2
        ((⟨name, flag, mode, size⟩, body) :: r.1, r.2)
  | _ + 1, _ => ([], some "invalid tar header")

/-- The toy reader, with fuel for every byte. -/
def demoTarRead (b : Bytes) : List (Header × Bytes) × Option String :=
  demoTarReadAux (b.length + 1) b

/-- A toy library: frames are the payload behind the magic number 40, archives
are in the toy format, maps are ranged over from the oldest key to the newest. -/
def demoEnv : Env where
  EncodeAll b := 40 :: b
  zstdReadAll b := match b with
    | 40 :: r => .ok r
    | _ => .error (.readAll "invalid input: magic number mismatch")
  tarWrite := demoTarWrite
  tarRead := demoTarRead
  mapRange m := m.reverse
  umask := 0o022

/-! # Theorems -/

/-! ## Staging -/

theorem filter_eq_filter_ne_of_ne (m : List (Path × Bytes)) {p q : Path} (h : q ≠ p) :
    (m.filter fun e => decide (e.1 ≠ p)).filter (fun e => decide (e.1 = q)) =
      m.filter fun e => decide (e.1 = q) := by
  rw [List.filter_filter]
  apply List.filter_congr
  intro e _
  by_cases he : e.1 = q
  · simp [he, h]
  · simp [he]

theorem lookup_filter_key_ne {β : Type} (m : List (Path × β)) {p q : Path} (h : q ≠ p) :
    List.lookup q (m.filter fun e => decide (e.1 ≠ p)) = List.lookup q m := by
  induction m with
  | nil => rfl
  | cons a t ih =>
    obtain ⟨k, v⟩ := a
    by_cases hk : k = p
    · subst hk
      have hq : (q == k) = false := by simpa using h
      simpa [List.filter_cons, List.lookup_cons, hq] using ih
    · by_cases hqk : q = k
      · subst hqk
        simp [List.filter_cons, List.lookup_cons, hk]
      · have hq : (q == k) = false := by simpa using hqk
        simpa [List.filter_cons, List.lookup_cons, hk, hq] using ih

theorem mapGet_mapPut (m : List (Path × Bytes)) (p q : Path) (c : Bytes) :
    mapGet (mapPut m p c) q = if q = p then some c else mapGet m q := by
  unfold mapGet mapPut
  by_cases h : q = p
  · subst h; simp [List.lookup_cons]
  · have hq : (q == p) = false := by simpa using h
    simpa [List.lookup_cons, hq, h] using lookup_filter_key_ne m h

theorem cacheFile_regular (disk : FS) (p : Path) (c : Bytes) (m : List (Path × Bytes))
    (h : osStat disk p = some false) (hc : (osReadFile disk p).1 = c) :
    cacheFile disk p m = mapPut m p c := by
  simp [cacheFile, h, hc]

/-- C8: staging is an upsert keyed by path.  When `cacheFile` stages `c1` for
`p` (what it reads from the regular file `p` on `disk1`) and then `c2` (what it
reads on `disk2`), the buffer is the one that staging `c2` alone gives; it holds
exactly one entry for `p`, with content `c2`; and the entries of every other
path are those of the buffer before. -/
theorem staging_is_upsert (m : List (Path × Bytes)) (p : Path) (c1 c2 : Bytes)
    (disk1 disk2 : FS)
    (h1 : osStat disk1 p = some false) (hc1 : (osReadFile disk1 p).1 = c1)
    (h2 : osStat disk2 p = some false) (hc2 : (osReadFile disk2 p).1 = c2) :
    cacheFile disk2 p (cacheFile disk1 p m) = cacheFile disk2 p m ∧
    (cacheFile disk2 p (cacheFile disk1 p m)).filter (fun e => decide (e.1 = p)) = [(p, c2)] ∧
    mapGet (cacheFile disk2 p (cacheFile disk1 p m)) p = some c2 ∧
    (∀ q, q ≠ p →
      (cacheFile disk2 p (cacheFile disk1 p m)).filter (fun e => decide (e.1 = q)) =
        m.filter (fun e => decide (e.1 = q))) ∧
    (∀ q, q ≠ p → mapGet (cacheFile disk2 p (cacheFile disk1 p m)) q = mapGet m q) := by
  rw [cacheFile_regular disk1 p c1 m h1 hc1, cacheFile_regular disk2 p c2 _ h2 hc2,
    cacheFile_regular disk2 p c2 m h2 hc2]
  have hput : mapPut (mapPut m p c1) p c2 = mapPut m p c2 := by
    simp [mapPut, List.filter_cons, List.filter_filter]
  refine ⟨hput, ?_, ?_, ?_, ?_⟩
  · rw [hput]
    simp [mapPut, List.filter_cons, List.filter_filter]
  · rw [hput, mapGet_mapPut]; simp
  · intro q hq
    rw [hput]
    have hpq : ¬ p = q := fun h => hq h.symm
    simp only [mapPut, List.filter_cons, hpq, decide_False, Bool.false_eq_true, if_false]
    exact filter_eq_filter_ne_of_ne m hq
  · intro q hq
    rw [hput, mapGet_mapPut, if_neg hq]

/-- C8 at a concrete buffer: `/tmp/a` is staged twice, `/tmp/b` stays. -/
theorem staging_is_upsert_witness :
    cacheFile [(["tmp"], Node.dir 0o777), (["tmp", "a"], Node.file [2] 0o644)] ["tmp", "a"]
        (cacheFile [(["tmp"], Node.dir 0o777), (["tmp", "a"], Node.file [1] 0o644)] ["tmp", "a"] [(["tmp", "b"], [5])]) =
      cacheFile [(["tmp"], Node.dir 0o777), (["tmp", "a"], Node.file [2] 0o644)] ["tmp", "a"] [(["tmp", "b"], [5])] ∧
    mapGet (cacheFile [(["tmp"], Node.dir 0o777), (["tmp", "a"], Node.file [2] 0o644)] ["tmp", "a"]
        (cacheFile [(["tmp"], Node.dir 0o777), (["tmp", "a"], Node.file [1] 0o644)] ["tmp", "a"] [(["tmp", "b"], [5])]))
      ["tmp", "b"] = some [5] :=
  ⟨(staging_is_upsert [(["tmp", "b"], [5])] ["tmp", "a"] [1] [2]
      [(["tmp"], Node.dir 0o777), (["tmp", "a"], Node.file [1] 0o644)]
      [(["tmp"], Node.dir 0o777), (["tmp", "a"], Node.file [2] 0o644)]
      (by decide) (by decide) (by decide) (by decide)).1,
   ((staging_is_upsert [(["tmp", "b"], [5])] ["tmp", "a"] [1] [2]
      [(["tmp"], Node.dir 0o777), (["tmp", "a"], Node.file [1] 0o644)]
      [(["tmp"], Node.dir 0o777), (["tmp", "a"], Node.file [2] 0o644)]
      (by decide) (by decide) (by decide) (by decide)).2.2.2.2 ["tmp", "b"] (by decide)).trans (by decide)⟩

/-- C5: a regular file whose read fails (its mode allows nothing) is staged all
the same, with no content, in place of the content staged before. -/
theorem cacheFile_read_failure_stages_empty :
    osStat [(["tmp"], Node.dir 0o777), (["tmp", "f"], Node.file [1, 2] 0)] ["tmp", "f"] =
      some false ∧
    (osReadFile [(["tmp"], Node.dir 0o777), (["tmp", "f"], Node.file [1, 2] 0)]
      ["tmp", "f"]).2 = false ∧
    cacheFile [(["tmp"], Node.dir 0o777), (["tmp", "f"], Node.file [1, 2] 0)] ["tmp", "f"]
        [(["tmp", "f"], [9])] =
      [(["tmp", "f"], [])] := by
  decide

/-- A file below a directory the process may not search cannot be stat-ed: the
event is dropped. -/
theorem cacheFile_below_unsearchable_directory :
    osReadFile [(["tmp"], Node.dir 0o777), (["tmp", "d"], Node.dir 0o600),
        (["tmp", "d", "f"], Node.file [1] 0o644)] ["tmp", "d", "f"] = ([], false) ∧
    cacheFile [(["tmp"], Node.dir 0o777), (["tmp", "d"], Node.dir 0o600),
        (["tmp", "d", "f"], Node.file [1] 0o644)] ["tmp", "d", "f"] [(["tmp", "a"], [9])] =
      [(["tmp", "a"], [9])] := by
  decide

/-! ## The watcher loop: events that stage nothing -/

/-- C9, as stated, fails for a directory: a create event for the directory
`/tmp/d`, handled in a state with no timer, stages nothing but arms the flush
timer. -/
theorem directory_event_arms_timer :
    osStat [(["tmp"], Node.dir 0o777), (["tmp", "d"], Node.dir 0o755)] ["tmp", "d"] = some true ∧
    (handleMsg ⟨[], none, [], none, [], []⟩
      (.event ⟨5, opCreate, ["tmp", "d"], [(["tmp"], Node.dir 0o777), (["tmp", "d"], Node.dir 0o755)]⟩)) =
      ⟨[], some 1000000005, [1000000005], none, [], []⟩ := by
  decide

/-- C9, amended: an event whose operation has neither the write nor the create
bit leaves the whole state as it is; a create or write event for a path that
is a directory or cannot be stat-ed stages nothing, yet it is followed by
`scheduleFlush`, which arms the timer anew. -/
theorem ignored_event (s : State) (e : Event)
    (h : e.Op &&& (opWrite ||| opCreate) = 0 ∨ osStat e.disk e.Name ≠ some false) :
    (handleMsg s (.event e)).stagedFiles = s.stagedFiles ∧
    (e.Op &&& (opWrite ||| opCreate) = 0 → handleMsg s (.event e) = s) ∧
    (e.Op &&& (opWrite ||| opCreate) ≠ 0 →
      handleMsg s (.event e) = scheduleFlush e.time s ∧
      (handleMsg s (.event e)).flushTimer = some (e.time + flushInterval) ∧
      e.time + flushInterval ∈ (handleMsg s (.event e)).timers) := by
  have hcache : osStat e.disk e.Name ≠ some false →
      cacheFile e.disk e.Name s.stagedFiles = s.stagedFiles := by
    intro hs
    unfold cacheFile
    split
    · rfl
    · rfl
    · rename_i h'; exact absurd h' hs
  by_cases hop : e.Op &&& (opWrite ||| opCreate) = 0
  · simp [handleMsg, hop]
  · have hs : osStat e.disk e.Name ≠ some false := h.resolve_left hop
    have hm : handleMsg s (.event e) = scheduleFlush e.time s := by
      simp [handleMsg, hop, hcache hs]
    rw [hm]
    refine ⟨rfl, fun h0 => absurd h0 hop, fun _ => ⟨rfl, rfl, ?_⟩⟩
    simp [scheduleFlush]

/-- C9, amended, at a remove event for `/tmp/a` while a timer is armed. -/
theorem ignored_event_witness :
    (handleMsg ⟨[(["tmp", "a"], [1])], some 7, [7], none, [], []⟩
      (.event ⟨5, opRemove, ["tmp", "a"], []⟩)).stagedFiles = [(["tmp", "a"], [1])] ∧
    (handleMsg ⟨[(["tmp", "a"], [1])], some 7, [7], none, [], []⟩
      (.event ⟨5, opRemove, ["tmp", "a"], []⟩)) =
        ⟨[(["tmp", "a"], [1])], some 7, [7], none, [], []⟩ :=
  ⟨(ignored_event ⟨[(["tmp", "a"], [1])], some 7, [7], none, [], []⟩
      ⟨5, opRemove, ["tmp", "a"], []⟩ (Or.inl (by decide))).1,
   (ignored_event ⟨[(["tmp", "a"], [1])], some 7, [7], none, [], []⟩
      ⟨5, opRemove, ["tmp", "a"], []⟩ (Or.inl (by decide))).2.1 (by decide)⟩

/-! ## Flushing -/

theorem flush_nonempty (env : Env) (putOk : Bool) (now : Nat) (s : State)
    (hne : s.stagedFiles ≠ []) :
    flushStagedToS3 env putOk now s =
      if putOk then
        { s with remote := some (env.EncodeAll (env.tarWrite (archiveEntries env s.stagedFiles))),
                 stagedFiles := [],
                 flushes := s.flushes ++ [⟨now, some (archiveEntries env s.stagedFiles), true⟩],
                 log := s.log ++ ["Flushed"] }
      else
        { s with flushes := s.flushes ++ [⟨now, some (archiveEntries env s.stagedFiles), false⟩],
                 log := s.log ++ ["Flush failed"] } := by
  have h : s.stagedFiles.length ≠ 0 := by
    intro h0; exact hne (List.length_eq_zero.mp h0)
  simp [flushStagedToS3, h]

/-- C1, as stated, fails: a flush whose put fails leaves the entry for `/tmp/a`
in the buffer, and the next flush, armed by a write to `/tmp/b` alone and
successful, uploads the entries of both. -/
theorem failed_flush_requeues :
    (flushStagedToS3 demoEnv false 10 ⟨[(["tmp", "a"], [1])], none, [], none, [], []⟩).stagedFiles
      = [(["tmp", "a"], [1])] ∧
    (quiesce demoEnv (fun _ => true)
      (handleMsg
        (flushStagedToS3 demoEnv false 10 ⟨[(["tmp", "a"], [1])], none, [], none, [], []⟩)
        (.event ⟨20, opWrite, ["tmp", "b"], [(["tmp"], Node.dir 0o777), (["tmp", "b"], Node.file [2] 0o644)]⟩))).flushes
      = [⟨10, some [(⟨["a"], 0, 0o644, 1⟩, [1])], false⟩,
         ⟨1000000020, some [(⟨["a"], 0, 0o644, 1⟩, [1]), (⟨["b"], 0, 0o644, 1⟩, [2])], true⟩] := by
  decide

theorem cacheFile_ne_nil (disk : FS) (q : Path) (m : List (Path × Bytes)) (hne : m ≠ []) :
    cacheFile disk q m ≠ [] := by
  unfold cacheFile
  split
  · exact hne
  · exact hne
  · simp [mapPut]

theorem mem_cacheFile_of_ne (disk : FS) (q : Path) (m : List (Path × Bytes))
    (e : Path × Bytes) (he : e ∈ m) (hq : e.1 ≠ q) : e ∈ cacheFile disk q m := by
  unfold cacheFile
  split
  · exact he
  · exact he
  · simp only [mapPut, List.mem_cons, List.mem_filter]
    exact Or.inr ⟨he, by simpa using hq⟩

theorem mem_archiveEntries (env : Env) (hperm : ∀ m, (env.mapRange m).Perm m)
    (m : List (Path × Bytes)) (x : Header × Bytes) :
    x ∈ archiveEntries env m ↔
      ∃ e ∈ m, x = (⟨filepathRel basePath e.1, TypeRegA, 0o644, e.2.length⟩, e.2) := by
  simp only [archiveEntries, List.mem_map]
  constructor
  · rintro ⟨e, he, rfl⟩
    exact ⟨e, (hperm m).mem_iff.mp he, rfl⟩
  · rintro ⟨e, he, rfl⟩
    exact ⟨e, (hperm m).mem_iff.mpr he, rfl⟩

/-- C1, amended: a flush whose put fails leaves the staging buffer and the
remote object as they were; after a later change to another path a
successful flush uploads the archive of the buffer as it is then, which holds
an entry for everything that was staged at the failed flush and, when the
changed path is a regular file, the entry of that change. -/
theorem failed_flush_keeps_entries (env : Env) (s : State) (now later : Nat) (disk : FS)
    (q : Path) (hperm : ∀ m, (env.mapRange m).Perm m) (hne : s.stagedFiles ≠ []) :
    (flushStagedToS3 env false now s).stagedFiles = s.stagedFiles ∧
    (flushStagedToS3 env false now s).remote = s.remote ∧
    (flushStagedToS3 env true later
        { flushStagedToS3 env false now s with
          stagedFiles := cacheFile disk q (flushStagedToS3 env false now s).stagedFiles }).remote
      = some (env.EncodeAll (env.tarWrite
          (archiveEntries env (cacheFile disk q s.stagedFiles)))) ∧
    (∀ e ∈ s.stagedFiles, e.1 ≠ q →
      (⟨filepathRel basePath e.1, TypeRegA, 0o644, e.2.length⟩, e.2) ∈
        archiveEntries env (cacheFile disk q s.stagedFiles)) ∧
    (osStat disk q = some false →
      (⟨filepathRel basePath q, TypeRegA, 0o644, (osReadFile disk q).1.length⟩,
          (osReadFile disk q).1) ∈
        archiveEntries env (cacheFile disk q s.stagedFiles)) := by
  rw [flush_nonempty env false now s hne]
  simp only [Bool.false_eq_true, if_false]
  refine ⟨trivial, trivial, ?_, ?_, ?_⟩
  · rw [flush_nonempty _ _ _ _ (cacheFile_ne_nil disk q _ hne)]
    simp
  · intro e he hq
    exact (mem_archiveEntries env hperm _ _).mpr ⟨e, mem_cacheFile_of_ne disk q _ e he hq, rfl⟩
  · intro hstat
    refine (mem_archiveEntries env hperm _ _).mpr ⟨(q, (osReadFile disk q).1), ?_, rfl⟩
    rw [cacheFile_regular disk q _ _ hstat rfl]
    simp [mapPut]

/-- C1, amended, at the buffer holding `/tmp/a`, with a later write to `/tmp/b`. -/
theorem failed_flush_keeps_entries_witness :
    (flushStagedToS3 demoEnv false 10
      ⟨[(["tmp", "a"], [1])], none, [], none, [], []⟩).stagedFiles = [(["tmp", "a"], [1])] ∧
    (⟨filepathRel basePath ["tmp", "a"], TypeRegA, 0o644, 1⟩, [1]) ∈
      archiveEntries demoEnv
        (cacheFile [(["tmp"], Node.dir 0o777), (["tmp", "b"], Node.file [2] 0o644)] ["tmp", "b"]
          [(["tmp", "a"], [1])]) :=
  ⟨(failed_flush_keeps_entries demoEnv ⟨[(["tmp", "a"], [1])], none, [], none, [], []⟩ 10 20
      [(["tmp"], Node.dir 0o777), (["tmp", "b"], Node.file [2] 0o644)] ["tmp", "b"]
      (fun m => List.reverse_perm m) (by decide)).1,
   (failed_flush_keeps_entries demoEnv ⟨[(["tmp", "a"], [1])], none, [], none, [], []⟩ 10 20
      [(["tmp"], Node.dir 0o777), (["tmp", "b"], Node.file [2] 0o644)] ["tmp", "b"]
      (fun m => List.reverse_perm m) (by decide)).2.2.2.1 (["tmp", "a"], [1])
      (by decide) (by decide)⟩

/-- C4, as stated, fails: `/tmp/a` is written and flushed, then `/tmp/b` is
written and flushed, both puts succeeding.  The object then holds the entry of
`b` alone, and restoring it on an empty base directory creates no `/tmp/a`. -/
theorem second_flush_drops_first :
    ((quiesce demoEnv (fun _ => true)
      (watchLoop demoEnv (fun _ => true) ⟨[], none, [], none, [], []⟩
        [.event ⟨0, opWrite, ["tmp", "a"], [(["tmp"], Node.dir 0o777), (["tmp", "a"], Node.file [1] 0o644)]⟩,
         .event ⟨2000000000, opWrite, ["tmp", "b"],
           [(["tmp"], Node.dir 0o777), (["tmp", "a"], Node.file [1] 0o644), (["tmp", "b"], Node.file [2] 0o644)]⟩])).flushes.map
        fun r => (r.time, r.archive.map (List.map fun x => x.1.Name), r.ok))
      = [(1000000000, some [["a"]], true), (3000000000, some [["b"]], true)] ∧
    (quiesce demoEnv (fun _ => true)
      (watchLoop demoEnv (fun _ => true) ⟨[], none, [], none, [], []⟩
        [.event ⟨0, opWrite, ["tmp", "a"], [(["tmp"], Node.dir 0o777), (["tmp", "a"], Node.file [1] 0o644)]⟩,
         .event ⟨2000000000, opWrite, ["tmp", "b"],
           [(["tmp"], Node.dir 0o777), (["tmp", "a"], Node.file [1] 0o644), (["tmp", "b"], Node.file [2] 0o644)]⟩])).remote
      = some (demoEnv.EncodeAll (demoEnv.tarWrite [(⟨["b"], 0, 0o644, 1⟩, [2])])) ∧
    rehydrateFromSingleFile demoEnv
        (.ok (demoEnv.EncodeAll (demoEnv.tarWrite [(⟨["b"], 0, 0o644, 1⟩, [2])])))
        [(["tmp"], Node.dir 0o777)]
      = ([(["tmp", "b"], Node.file [2] 0o644), (["tmp"], Node.dir 0o777)], none) := by
  decide

/-- C4, amended: a successful flush replaces the remote object by the archive
of what is in the staging buffer then, one entry per staged path and nothing
else, and empties the buffer; so the object holds the paths written since the
flush before it, not those uploaded earlier and not written again. -/
theorem successful_flush_uploads_buffer_only (env : Env) (s : State) (now : Nat)
    (hperm : ∀ m, (env.mapRange m).Perm m) (hne : s.stagedFiles ≠ []) :
    (flushStagedToS3 env true now s).remote =
      some (env.EncodeAll (env.tarWrite (archiveEntries env s.stagedFiles))) ∧
    (flushStagedToS3 env true now s).stagedFiles = [] ∧
    ((archiveEntries env s.stagedFiles).map fun x => (x.1.Name, x.2)).Perm
      (s.stagedFiles.map fun e => (filepathRel basePath e.1, e.2)) := by
  rw [flush_nonempty env true now s hne]
  refine ⟨rfl, rfl, ?_⟩
  simp only [archiveEntries, List.map_map]
  exact (hperm s.stagedFiles).map _

/-- C4, amended, at a buffer holding `/tmp/b` while the store holds an older
object. -/
theorem successful_flush_uploads_buffer_only_witness :
    (flushStagedToS3 demoEnv true 10 ⟨[(["tmp", "b"], [2])], none, [], some [40, 0], [], []⟩).remote
      = some (demoEnv.EncodeAll (demoEnv.tarWrite
          (archiveEntries demoEnv [(["tmp", "b"], [2])]))) ∧
    (flushStagedToS3 demoEnv true 10
      ⟨[(["tmp", "b"], [2])], none, [], some [40, 0], [], []⟩).stagedFiles = [] :=
  ⟨(successful_flush_uploads_buffer_only demoEnv
      ⟨[(["tmp", "b"], [2])], none, [], some [40, 0], [], []⟩ 10
      (fun m => List.reverse_perm m) (by decide)).1,
   (successful_flush_uploads_buffer_only demoEnv
      ⟨[(["tmp", "b"], [2])], none, [], some [40, 0], [], []⟩ 10
      (fun m => List.reverse_perm m) (by decide)).2.1⟩

theorem deadlineAfter_cons (e : Event) (t : List Event) (d : Nat) :
    deadlineAfter (e :: t) d = deadlineAfter t (e.time + flushInterval) := by
  unfold deadlineAfter
  cases t with
  | nil => rfl
  | cons a l =>
    simp only [List.getLast?_cons_cons]
    rw [List.getLast?_eq_getLast _ (List.cons_ne_nil a l)]

theorem advance_not_due (env : Env) (putOk : Nat → Bool) (t : Nat) (s : State)
    (h : ∀ d ∈ s.timers, t < d) : advance env putOk t s = s := by
  unfold advance
  have : (s.timers.filter fun d => decide (d ≤ t)) = [] := by
    rw [List.filter_eq_nil_iff]
    intro d hd
    have := h d hd
    simp; omega
  rw [this]; rfl

theorem burst_pending (env : Env) (putOk : Nat → Bool) (evs : List Event) :
    ∀ (s : State) (d : Nat), s.timers = [d] → s.flushTimer = some d →
      (∀ e ∈ evs.head?, e.time < d) →
      (∀ e ∈ evs, e.Op &&& (opWrite ||| opCreate) ≠ 0) →
      evs.Chain' (fun a b => a.time ≤ b.time ∧ b.time < a.time + flushInterval) →
      watchLoop env putOk s (evs.map Msg.event) =
        { s with stagedFiles := stageAll evs s.stagedFiles,
                 timers := [deadlineAfter evs d],
                 flushTimer := some (deadlineAfter evs d) } := by
  induction evs with
  | nil =>
    intro s d ht hf _ _ _
    simp [watchLoop, stageAll, deadlineAfter, ← ht, ← hf]
  | cons e t ih =>
    intro s d ht hf hhead hop hchain
    have hed : e.time < d := hhead e (by simp)
    have hadv : advance env putOk e.time s = s :=
      advance_not_due env putOk e.time s (by intro x hx; rw [ht] at hx; simp at hx; omega)
    have hope := hop e (by simp)
    have hstep : handleMsg (advance env putOk (Msg.event e).time s) (.event e) =
        { s with stagedFiles := cacheFile e.disk e.Name s.stagedFiles,
                 timers := [e.time + flushInterval],
                 flushTimer := some (e.time + flushInterval) } := by
      have : (Msg.event e).time = e.time := rfl
      rw [this, hadv]
      simp [handleMsg, hope, scheduleFlush, hf, ht]
    have hw : watchLoop env putOk s ((e :: t).map Msg.event) =
        watchLoop env putOk (handleMsg (advance env putOk (Msg.event e).time s) (.event e))
          (t.map Msg.event) := by
      simp [watchLoop]
    rw [hw, hstep]
    rw [ih _ (e.time + flushInterval) rfl rfl]
    · rw [deadlineAfter_cons]
      simp [stageAll]
    · intro a ha
      cases t with
      | nil => simp at ha
      | cons b l =>
        simp at ha
        subst ha
        exact (List.chain'_cons.mp hchain).1.2
    · intro a ha; exact hop a (by simp [ha])
    · exact hchain.tail

theorem burst_idle (env : Env) (putOk : Nat → Bool) (evs : List Event) (s : State)
    (hne : evs ≠ []) (hidle : s.timers = [])
    (hop : ∀ e ∈ evs, e.Op &&& (opWrite ||| opCreate) ≠ 0)
    (hchain : evs.Chain' (fun a b => a.time ≤ b.time ∧ b.time < a.time + flushInterval)) :
    watchLoop env putOk s (evs.map Msg.event) =
      { s with stagedFiles := stageAll evs s.stagedFiles,
               timers := [(evs.getLast hne).time + flushInterval],
               flushTimer := some ((evs.getLast hne).time + flushInterval) } := by
  cases evs with
  | nil => exact absurd rfl hne
  | cons e t =>
    have hadv : advance env putOk e.time s = s :=
      advance_not_due env putOk e.time s (by intro x hx; rw [hidle] at hx; simp at hx)
    have hope := hop e (by simp)
    have herase : (match s.flushTimer with
        | some d => s.timers.erase d
        | none => s.timers) = [] := by
      rw [hidle]; cases s.flushTimer <;> simp
    have hstep : handleMsg (advance env putOk (Msg.event e).time s) (.event e) =
        { s with stagedFiles := cacheFile e.disk e.Name s.stagedFiles,
                 timers := [e.time + flushInterval],
                 flushTimer := some (e.time + flushInterval) } := by
      have : (Msg.event e).time = e.time := rfl
      rw [this, hadv]
      simp [handleMsg, hope, scheduleFlush]
      exact herase
    have hw : watchLoop env putOk s ((e :: t).map Msg.event) =
        watchLoop env putOk (handleMsg (advance env putOk (Msg.event e).time s) (.event e))
          (t.map Msg.event) := by
      simp [watchLoop]
    rw [hw, hstep]
    rw [burst_pending env putOk t _ (e.time + flushInterval) rfl rfl]
    · have hd : deadlineAfter t (e.time + flushInterval) =
          ((e :: t).getLast hne).time + flushInterval := by
        rw [← deadlineAfter_cons e t 0]
        unfold deadlineAfter
        rw [List.getLast?_eq_getLast _ hne]
      rw [hd]
      simp [stageAll]
    · intro a ha
      cases t with
      | nil => simp at ha
      | cons b l =>
        simp at ha
        subst ha
        exact (List.chain'_cons.mp hchain).1.2
    · intro a ha; exact hop a (by simp [ha])
    · exact hchain.tail

theorem mem_of_lookup {α β : Type} [BEq α] [LawfulBEq α] (k : α) (v : β) (m : List (α × β))
    (h : List.lookup k m = some v) : (k, v) ∈ m := by
  induction m with
  | nil => simp at h
  | cons a t ih =>
    obtain ⟨k', v'⟩ := a
    by_cases hk : (k == k') = true
    · have hkk : k = k' := by simpa using hk
      rw [List.lookup_cons, hk] at h
      simp at h
      subst hkk; subst h
      exact List.mem_cons_self _ _
    · have hk' : (k == k') = false := by simpa using hk
      rw [List.lookup_cons, hk'] at h
      exact List.mem_cons_of_mem _ (ih h)

theorem lastWrite_cons (e : Event) (t : List Event) (p : Path) :
    lastWrite (e :: t) p =
      match lastWrite t p with
      | some c => some c
      | none => if e.Name = p then some (osReadFile e.disk e.Name).1 else none := by
  unfold lastWrite
  by_cases h : e.Name = p
  · subst h
    simp only [List.filter_cons, decide_True, if_true]
    cases hf : (t.filter fun x => decide (x.Name = e.Name)) with
    | nil => simp
    | cons a l =>
      rw [List.getLast?_cons_cons]
      rw [List.getLast?_eq_getLast _ (List.cons_ne_nil a l)]
      simp
  · simp only [List.filter_cons, h, decide_False, Bool.false_eq_true, if_false]
    cases ((t.filter fun e => decide (e.Name = p)).getLast?) <;> simp

theorem mapGet_stageAll (evs : List Event) :
    ∀ (m : List (Path × Bytes)) (p : Path), (∀ e ∈ evs, osStat e.disk e.Name = some false) →
      mapGet (stageAll evs m) p =
        match lastWrite evs p with
        | some c => some c
        | none => mapGet m p := by
  induction evs with
  | nil => intro m p _; rfl
  | cons e t ih =>
    intro m p hq
    have he := hq e (by simp)
    have hc : cacheFile e.disk e.Name m = mapPut m e.Name (osReadFile e.disk e.Name).1 := by
      simp [cacheFile, he]
    have hs : stageAll (e :: t) m = stageAll t (cacheFile e.disk e.Name m) := rfl
    rw [hs, ih _ p (fun a ha => hq a (by simp [ha])), lastWrite_cons, hc, mapGet_mapPut]
    cases lastWrite t p with
    | some c => rfl
    | none =>
      by_cases h : e.Name = p
      · simp [h]
      · have h' : ¬ p = e.Name := fun x => h x.symm
        simp [h, h']

theorem lastWrite_isSome (evs : List Event) (e : Event) (he : e ∈ evs) :
    ∃ c, lastWrite evs e.Name = some c := by
  unfold lastWrite
  have hmem : e ∈ evs.filter fun x => decide (x.Name = e.Name) := by
    simp [List.mem_filter, he]
  have hne : (evs.filter fun x => decide (x.Name = e.Name)) ≠ [] := List.ne_nil_of_mem hmem
  rw [List.getLast?_eq_getLast _ hne]
  exact ⟨_, rfl⟩

theorem quiesce_single (env : Env) (putOk : Nat → Bool) (s : State) (d : Nat)
    (ht : s.timers = [d]) (hne : s.stagedFiles ≠ []) :
    (quiesce env putOk s).flushes =
        s.flushes ++ [⟨d, some (archiveEntries env s.stagedFiles), putOk d⟩] ∧
      (quiesce env putOk s).timers = [] := by
  unfold quiesce
  rw [ht]
  simp only [List.foldl_cons, List.foldl_nil, fire]
  rw [flush_nonempty env _ _ _ (by simpa using hne)]
  cases putOk d <;> simp [ht]

/-- C3: sliding-window debounce.  From a state with no armed timer, a
non-empty burst of qualifying events, each arriving less than `flushInterval`
after the one before, with nothing after it, causes no flush call while it
lasts and exactly one once it is over, `flushInterval` after its last event;
the archive built by that call has, for every path of the burst, the entry
with the content read at the most recent event for it. -/
theorem debounce_burst (env : Env) (putOk : Nat → Bool) (s : State) (evs : List Event)
    (hperm : ∀ m, (env.mapRange m).Perm m) (hne : evs ≠ []) (hidle : s.timers = [])
    (hq : ∀ e ∈ evs, qualifying e)
    (hgap : evs.Chain' (fun a b => a.time ≤ b.time ∧ b.time < a.time + flushInterval)) :
    (watchLoop env putOk s (evs.map Msg.event)).flushes = s.flushes ∧
    ∃ arch,
      (quiesce env putOk (watchLoop env putOk s (evs.map Msg.event))).flushes =
        s.flushes ++ [⟨(evs.getLast hne).time + flushInterval, some arch,
          putOk ((evs.getLast hne).time + flushInterval)⟩] ∧
      (quiesce env putOk (watchLoop env putOk s (evs.map Msg.event))).timers = [] ∧
      ∀ e ∈ evs, ∃ c, lastWrite evs e.Name = some c ∧
        (⟨filepathRel basePath e.Name, TypeRegA, 0o644, c.length⟩, c) ∈ arch := by
  have hburst := burst_idle env putOk evs s hne hidle (fun e he => (hq e he).1) hgap
  have hmem : ∀ e ∈ evs, ∃ c, lastWrite evs e.Name = some c ∧
      (e.Name, c) ∈ stageAll evs s.stagedFiles := by
    intro e he
    obtain ⟨c, hc⟩ := lastWrite_isSome evs e he
    refine ⟨c, hc, mem_of_lookup _ _ _ ?_⟩
    have := mapGet_stageAll evs s.stagedFiles e.Name (fun a ha => (hq a ha).2.1)
    rw [hc] at this
    exact this
  have hstaged : stageAll evs s.stagedFiles ≠ [] := by
    obtain ⟨c, _, hc⟩ := hmem (evs.getLast hne) (List.getLast_mem hne)
    exact List.ne_nil_of_mem hc
  rw [hburst]
  refine ⟨rfl, archiveEntries env (stageAll evs s.stagedFiles), ?_, ?_, ?_⟩
  · exact (quiesce_single env putOk _ _ rfl hstaged).1
  · exact (quiesce_single env putOk _ _ rfl hstaged).2
  · intro e he
    obtain ⟨c, hc, hin⟩ := hmem e he
    exact ⟨c, hc, (mem_archiveEntries env hperm _ _).mpr ⟨(e.Name, c), hin, rfl⟩⟩

/-- C3 at a burst of three events, 0.5 s and 0.9 s apart: no flush while it
lasts. -/
theorem debounce_burst_witness :
    (watchLoop demoEnv (fun _ => true) ⟨[], none, [], none, [], []⟩
      ([⟨0, opCreate, ["tmp", "a"], [(["tmp"], Node.dir 0o777), (["tmp", "a"], Node.file [] 0o644)]⟩,
        ⟨500000000, opWrite, ["tmp", "a"], [(["tmp"], Node.dir 0o777), (["tmp", "a"], Node.file [1] 0o644)]⟩,
        ⟨1400000000, opWrite, ["tmp", "b"], [(["tmp"], Node.dir 0o777), (["tmp", "b"], Node.file [2] 0o644)]⟩].map
        Msg.event)).flushes = [] :=
  (debounce_burst demoEnv (fun _ => true) ⟨[], none, [], none, [], []⟩
    [⟨0, opCreate, ["tmp", "a"], [(["tmp"], Node.dir 0o777), (["tmp", "a"], Node.file [] 0o644)]⟩,
      ⟨500000000, opWrite, ["tmp", "a"], [(["tmp"], Node.dir 0o777), (["tmp", "a"], Node.file [1] 0o644)]⟩,
      ⟨1400000000, opWrite, ["tmp", "b"], [(["tmp"], Node.dir 0o777), (["tmp", "b"], Node.file [2] 0o644)]⟩]
    (fun m => List.reverse_perm m) (by decide) rfl (by decide)
    (by simp [flushInterval])).1

/-- The burst of the example above ends in one flush, 2.4 s after its start,
with the second content of `a` and the content of `b`. -/
theorem debounce_burst_example :
    (quiesce demoEnv (fun _ => true)
      (watchLoop demoEnv (fun _ => true) ⟨[], none, [], none, [], []⟩
        ([⟨0, opCreate, ["tmp", "a"], [(["tmp"], Node.dir 0o777), (["tmp", "a"], Node.file [] 0o644)]⟩,
          ⟨500000000, opWrite, ["tmp", "a"], [(["tmp"], Node.dir 0o777), (["tmp", "a"], Node.file [1] 0o644)]⟩,
          ⟨1400000000, opWrite, ["tmp", "b"], [(["tmp"], Node.dir 0o777), (["tmp", "b"], Node.file [2] 0o644)]⟩].map
          Msg.event))).flushes =
      [⟨2400000000, some [(⟨["a"], 0, 0o644, 1⟩, [1]), (⟨["b"], 0, 0o644, 1⟩, [2])], true⟩] := by
  decide

/-! ## Restore: failures -/

theorem extractLoop_error (umask : Nat) (es : List (Header × Bytes)) (e : String) (fs : FS) :
    (extractLoop umask es (some e) fs).2 ≠ none := by
  induction es generalizing fs with
  | nil => simp [extractLoop]
  | cons a t ih =>
    obtain ⟨hdr, body⟩ := a
    simp only [extractLoop]
    split
    · exact ih _
    · split
      · simp
      · exact ih _

/-- C7: when `GetObject` fails, for a missing key or otherwise,
`rehydrateFromSingleFile` returns an error and the file system it was given,
and `main` goes on to start the watcher on that file system. -/
theorem get_failure_is_not_fatal (env : Env) (netErr : Option String) (remote : Option Bytes)
    (fs : FS) (h : netErr ≠ none ∨ remote = none) :
    ∃ e, rehydrateFromSingleFile env (GetObject netErr remote) fs = (fs, some e) ∧
      main env true true true netErr remote fs =
        Outcome.watching fs
          ⟨[], none, [], remote, [], ["Warning: failed to rehydrate from file: " ++ e]⟩ := by
  have hget : ∃ e, GetObject netErr remote = .error e := by
    cases netErr with
    | some e => exact ⟨e, rfl⟩
    | none =>
      cases remote with
      | none => exact ⟨_, rfl⟩
      | some b => simp at h
  obtain ⟨e, he⟩ := hget
  refine ⟨"failed to get object: " ++ e, ?_, ?_⟩
  · rw [he]; rfl
  · simp [main, he, rehydrateFromSingleFile]

/-- C7 at a store without the key. -/
theorem get_failure_is_not_fatal_witness :
    ∃ e, rehydrateFromSingleFile demoEnv (GetObject none none) [(["tmp"], Node.dir 0o777)] =
        ([(["tmp"], Node.dir 0o777)], some e) ∧
      main demoEnv true true true none none [(["tmp"], Node.dir 0o777)] =
        Outcome.watching [(["tmp"], Node.dir 0o777)]
          ⟨[], none, [], none, [], ["Warning: failed to rehydrate from file: " ++ e]⟩ :=
  get_failure_is_not_fatal demoEnv none none [(["tmp"], Node.dir 0o777)] (Or.inr rfl)

/-- C6, as stated, fails: the object holds one well-formed entry for `a` and
then bytes that are no tar header.  The restore returns an error, and the file
`/tmp/a` has been created in a base directory that was empty. -/
theorem restore_not_atomic :
    rehydrateFromSingleFile demoEnv (.ok [40, 1, 48, 420, 1, 1, 1, 97, 7, 9, 9, 9])
        [(["tmp"], Node.dir 0o777)] =
      ([(["tmp", "a"], Node.file [7] 0o644), (["tmp"], Node.dir 0o777)],
        some "invalid tar header") := by
  decide

/-- An archive cut short between two entries is no error: without the end mark
the reader reports the end of the archive after the entry for `a`, and the
restore returns nil. -/
theorem restore_of_cut_between_entries :
    rehydrateFromSingleFile demoEnv (.ok [40, 1, 48, 420, 1, 1, 1, 97, 7])
        [(["tmp"], Node.dir 0o777)] =
      ([(["tmp", "a"], Node.file [7] 0o644), (["tmp"], Node.dir 0o777)], none) := by
  decide

/-- A file whose mode allows nothing cannot be opened by `os.Create`: the
restore returns its error and leaves the file as it was. -/
theorem restore_onto_locked_file :
    rehydrateFromSingleFile demoEnv
        (.ok (demoEnv.EncodeAll (demoEnv.tarWrite [(⟨["b"], TypeRegA, 0o644, 1⟩, [2])])))
        [(["tmp"], Node.dir 0o777), (["tmp", "b"], Node.file [9] 0)] =
      ([(["tmp"], Node.dir 0o777), (["tmp", "b"], Node.file [9] 0)], some "create") := by
  decide

/-- A directory entry with mode 0 makes a directory the process may not write:
nothing can be made below it, and the restore returns the error of
`os.Create`. -/
theorem restore_below_closed_directory :
    rehydrateFromSingleFile demoEnv
        (.ok (demoEnv.EncodeAll (demoEnv.tarWrite
          [(⟨["d"], TypeDir, 0, 0⟩, []), (⟨["d", "e", "f"], TypeRegA, 0o644, 1⟩, [7])])))
        [(["tmp"], Node.dir 0o777)] =
      ([(["tmp", "d"], Node.dir 0), (["tmp"], Node.dir 0o777)], some "create") := by
  decide

/-- A directory the process may write but not search is as closed. -/
theorem restore_below_unsearchable_directory :
    rehydrateFromSingleFile demoEnv
        (.ok (demoEnv.EncodeAll (demoEnv.tarWrite
          [(⟨["d"], TypeDir, 0o200, 0⟩, []), (⟨["d", "e", "f"], TypeRegA, 0o644, 1⟩, [7])])))
        [(["tmp"], Node.dir 0o777)] =
      ([(["tmp", "d"], Node.dir 0o200), (["tmp"], Node.dir 0o777)], some "create") := by
  decide

/-- In a directory the process may not write no file can be created. -/
theorem restore_into_read_only_directory :
    rehydrateFromSingleFile demoEnv
        (.ok (demoEnv.EncodeAll (demoEnv.tarWrite [(⟨["d", "f"], TypeRegA, 0o644, 1⟩, [7])])))
        [(["tmp"], Node.dir 0o777), (["tmp", "d"], Node.dir 0o500)] =
      ([(["tmp"], Node.dir 0o777), (["tmp", "d"], Node.dir 0o500)], some "create") := by
  decide

/-- A file below a directory the process may not search cannot be opened,
whatever its own mode. -/
theorem restore_onto_file_out_of_reach :
    rehydrateFromSingleFile demoEnv
        (.ok (demoEnv.EncodeAll (demoEnv.tarWrite [(⟨["d", "f"], TypeRegA, 0o644, 1⟩, [7])])))
        [(["tmp"], Node.dir 0o777), (["tmp", "d"], Node.dir 0o600),
          (["tmp", "d", "f"], Node.file [9] 0o644)] =
      ([(["tmp"], Node.dir 0o777), (["tmp", "d"], Node.dir 0o600),
        (["tmp", "d", "f"], Node.file [9] 0o644)], some "create") := by
  decide

/-- Without a base directory nothing is restored: the process may not write
the root. -/
theorem restore_without_base_directory :
    rehydrateFromSingleFile demoEnv
        (.ok (demoEnv.EncodeAll (demoEnv.tarWrite [(⟨["b"], TypeRegA, 0o644, 1⟩, [2])]))) [] =
      ([], some "create") := by
  decide

/-! ## The file system -/

theorem fsLookup_fsSet (fs : FS) (p q : Path) (n : Node) (hp : p ≠ []) :
    fsLookup (fsSet fs p n) q = if q = p then some n else fsLookup fs q := by
  unfold fsLookup fsSet
  by_cases hq : q = []
  · subst hq
    have : ¬ ([] : Path) = p := fun h => hp h.symm
    simp [this]
  · by_cases hqp : q = p
    · subst hqp; simp [hq, List.lookup_cons]
    · have hb : (q == p) = false := by simpa using hqp
      simp only [hq, hqp, if_false, List.lookup_cons, hb]
      exact lookup_filter_key_ne fs hqp

theorem fsLookup_fsSet_ne (fs : FS) {p q : Path} (n : Node) (hp : p ≠ []) (hq : q ≠ p) :
    fsLookup (fsSet fs p n) q = fsLookup fs q := by
  rw [fsLookup_fsSet _ _ _ _ hp, if_neg hq]

theorem fsLookup_fsSet_self (fs : FS) {p : Path} (n : Node) (hp : p ≠ []) :
    fsLookup (fsSet fs p n) p = some n := by
  rw [fsLookup_fsSet _ _ _ _ hp, if_pos rfl]

/-- A umask that leaves the owner's write and search bits. -/
theorem newMode_bits (umask perm i : Nat) (hi : i < 9) :
    (newMode umask perm).testBit i = (perm.testBit i && !umask.testBit i) := by
  have h777 : (0o777 : Nat).testBit i = true := by
    have : (0o777 : Nat) = 2 ^ 9 - 1 := by decide
    rw [this, Nat.testBit_two_pow_sub_one]; simpa using hi
  unfold newMode
  simp only [Nat.testBit_xor, Nat.testBit_and, h777]
  cases perm.testBit i <;> cases umask.testBit i <;> rfl

theorem newDir_ok (umask : Nat) (h7 : umask.testBit 7 = false) (h6 : umask.testBit 6 = false) :
    canWrite (newMode umask 0o755) = true ∧ canSearch (newMode umask 0o755) = true := by
  unfold canWrite canSearch
  rw [newMode_bits _ _ _ (by decide), newMode_bits _ _ _ (by decide), h7, h6]
  decide

theorem searchable_iff (fs : FS) (p : Path) :
    searchable fs p = true ↔ ∀ q, q <+: p → q ≠ p → searchableDir fs q = true := by
  unfold searchable
  rw [List.all_eq_true]
  constructor
  · intro h q hq hne
    exact h q (by simp [List.mem_filter, List.mem_inits, hq, hne])
  · intro h q hq
    simp only [List.mem_filter, List.mem_inits, decide_eq_true_eq] at hq
    exact h q hq.1 hq.2

theorem okDir_dir {fs : FS} {q : Path} {n : Node} (hl : fsLookup fs q = some n)
    (hok : okDir fs q = true) :
    ∃ m, n = Node.dir m ∧ canWrite m = true ∧ canSearch m = true := by
  unfold okDir at hok
  rw [hl] at hok
  cases n with
  | dir m =>
    simp only [Bool.and_eq_true] at hok
    exact ⟨m, rfl, hok.1, hok.2⟩
  | file d m => simp at hok

/-- The walk of `os.MkdirAll` below a directory the process may write and
search, where what lies on the way is missing or such a directory: it succeeds,
everything on the way is such a directory afterwards, and nothing else has
changed. -/
theorem mkdirFrom_spec (umask : Nat) (h7 : umask.testBit 7 = false)
    (h6 : umask.testBit 6 = false) (cs : List String) :
    ∀ (pre : Path) (fs : FS),
      (∀ a, a <+: pre → searchableDir fs a = true) →
      (∃ m, fsLookup fs pre = some (Node.dir m) ∧ canWrite m = true) →
      (∀ t, t ≠ [] → t <+: cs → okDir fs (pre ++ t) = true) →
      ∃ fs', mkdirFrom umask 0o755 fs pre cs = (fs', true) ∧
        (∀ t, t ≠ [] → t <+: cs →
          ∃ m, fsLookup fs' (pre ++ t) = some (Node.dir m) ∧ canWrite m = true ∧
            canSearch m = true) ∧
        (∀ q, fsLookup fs q ≠ none → fsLookup fs' q = fsLookup fs q) ∧
        (∀ q, (¬ ∃ t, t ≠ [] ∧ t <+: cs ∧ q = pre ++ t) → fsLookup fs' q = fsLookup fs q) := by
  induction cs with
  | nil =>
    intro pre fs _ _ _
    refine ⟨fs, rfl, ?_, fun _ _ => rfl, fun _ _ => rfl⟩
    intro t ht hp
    exact absurd (List.prefix_nil.mp hp) ht
  | cons c cs ih =>
    intro pre fs hsearch hw hok
    have hq1 : pre ++ [c] ≠ [] := by simp
    have hok1 : okDir fs (pre ++ [c]) = true := hok [c] (by simp) (by simp)
    have hsplit : ∀ t, t ≠ [] → t <+: c :: cs → ∃ t', t = c :: t' ∧ t' <+: cs := by
      intro t ht hp
      rcases List.prefix_cons_iff.mp hp with h | ⟨t', h, hp'⟩
      · exact absurd h ht
      · exact ⟨t', h, hp'⟩
    -- the state after the first component, in both cases
    have hstep : ∃ fs1, mkdirFrom umask 0o755 fs pre (c :: cs) =
          mkdirFrom umask 0o755 fs1 (pre ++ [c]) cs ∧
        (∃ m, fsLookup fs1 (pre ++ [c]) = some (Node.dir m) ∧ canWrite m = true ∧
          canSearch m = true) ∧
        (∀ q, q ≠ pre ++ [c] → fsLookup fs1 q = fsLookup fs q) ∧
        (fsLookup fs (pre ++ [c]) ≠ none → fs1 = fs) := by
      cases hl : fsLookup fs (pre ++ [c]) with
      | some n =>
        obtain ⟨m, hn, hmw, hmx⟩ := okDir_dir hl hok1
        subst hn
        refine ⟨fs, ?_, ⟨m, hl, hmw, hmx⟩, fun _ _ => rfl, fun _ => rfl⟩
        simp only [mkdirFrom, hl]
      | none =>
        obtain ⟨m, hm, hmw⟩ := hw
        have hs : searchable fs (pre ++ [c]) = true := by
          rw [searchable_iff]
          intro q hq hne
          rcases List.prefix_concat_iff.mp hq with h | h
          · exact absurd h hne
          · exact hsearch q h
        have hmk : osMkdir umask fs (pre ++ [c]) 0o755 =
            some (fsSet fs (pre ++ [c]) (Node.dir (newMode umask 0o755))) := by
          simp [osMkdir, hl, hs, hm, hmw]
        refine ⟨_, ?_, ⟨_, fsLookup_fsSet_self fs _ hq1, newDir_ok umask h7 h6⟩,
          fun q hq => fsLookup_fsSet_ne fs _ hq1 hq, fun h => absurd rfl h⟩
        simp only [mkdirFrom, hl, hmk]
    obtain ⟨fs1, hrun, ⟨m1, hl1, hw1, hx1⟩, hsame, hkeep⟩ := hstep
    have hsearch1 : ∀ a, a <+: pre ++ [c] → searchableDir fs1 a = true := by
      intro a ha
      rcases List.prefix_concat_iff.mp ha with h | h
      · subst h; simp [searchableDir, hl1, hx1]
      · have hne : a ≠ pre ++ [c] := by
          intro h'
          have := h.length_le
          rw [h'] at this
          simp at this
        have := hsearch a h
        unfold searchableDir at this ⊢
        rw [hsame a hne]; exact this
    have hok' : ∀ t, t ≠ [] → t <+: cs → okDir fs1 (pre ++ [c] ++ t) = true := by
      intro t ht hp
      have hne : pre ++ [c] ++ t ≠ pre ++ [c] := by
        intro h
        have := congrArg List.length h
        simp at this
        exact ht this
      have := hok (c :: t) (by simp) (by simpa using hp)
      unfold okDir at this ⊢
      rw [hsame _ hne]
      simpa using this
    obtain ⟨fs', hrun', hdirs, hold, hrest⟩ := ih (pre ++ [c]) fs1 hsearch1 ⟨m1, hl1, hw1⟩ hok'
    refine ⟨fs', by rw [hrun, hrun'], ?_, ?_, ?_⟩
    · intro t ht hp
      obtain ⟨t', rfl, hp'⟩ := hsplit t ht hp
      by_cases ht' : t' = []
      · subst ht'
        rw [hold _ (by rw [hl1]; simp), hl1]
        exact ⟨m1, rfl, hw1, hx1⟩
      · have := hdirs t' ht' hp'
        simpa using this
    · intro q hq
      by_cases hq1' : q = pre ++ [c]
      · subst hq1'
        rw [hold _ (by rw [hl1]; simp), hkeep hq]
      · rw [hold q (by rw [hsame q hq1']; exact hq), hsame q hq1']
    · intro q hq
      have hq1' : q ≠ pre ++ [c] := by
        intro h
        exact hq ⟨[c], by simp, by simp, h⟩
      rw [hrest q ?_, hsame q hq1']
      rintro ⟨t, ht, hp, rfl⟩
      exact hq ⟨c :: t, by simp, by simpa using hp, by simp⟩

theorem searchableDir_root (fs : FS) : searchableDir fs [] = true := by
  have h : fsLookup fs [] = some (Node.dir 0o555) := by simp [fsLookup]
  have hx : canSearch 0o555 = true := by decide
  simp [searchableDir, h, hx]

theorem baseReady_dir {fs : FS} (h : baseReady fs = true) :
    ∃ m, fsLookup fs basePath = some (Node.dir m) ∧ canWrite m = true ∧ canSearch m = true := by
  unfold baseReady at h
  cases hl : fsLookup fs basePath with
  | none => simp [hl] at h
  | some n =>
    cases n with
    | dir m =>
      simp only [hl, Bool.and_eq_true] at h
      exact ⟨m, rfl, h.1, h.2⟩
    | file d m => simp [hl] at h

theorem prefix_dropLast {t r : List String} (hp : t <+: r) (hne : t ≠ r) : t <+: r.dropLast := by
  rw [List.dropLast_eq_take, List.prefix_take_iff]
  refine ⟨hp, ?_⟩
  have h1 := hp.length_le
  have h2 : t.length ≠ r.length := fun h => hne (hp.eq_of_length h)
  omega

/-- What extracting one file entry with target `p` does, on a file system with
room for it. -/
theorem extract_one (umask : Nat) (h7 : umask.testBit 7 = false) (h6 : umask.testBit 6 = false)
    (fs : FS) (p : Path) (body : Bytes) (hbelow : basePath <+: p) (hne : p ≠ basePath)
    (hbase : baseReady fs = true) (hadm : admits fs p) :
    ∃ fs2 mode, osCreate umask (osMkdirAll umask fs (filepathDir p) 0o755).1 p = some fs2 ∧
      fsLookup (fileWrite fs2 p body) p = some (Node.file body mode) ∧
      (∀ q, q ≠ p → fsLookup fs q ≠ none →
        fsLookup (fileWrite fs2 p body) q = fsLookup fs q) ∧
      (∀ q, ¬ q <+: p → fsLookup (fileWrite fs2 p body) q = fsLookup fs q) ∧
      (∀ q, q <+: p → q ≠ p → q ≠ [] →
        ∃ m, fsLookup (fileWrite fs2 p body) q = some (Node.dir m) ∧ canWrite m = true ∧
          canSearch m = true) := by
  obtain ⟨r, hr⟩ := hbelow
  subst hr
  have hr0 : r ≠ [] := by
    intro h; apply hne; simp [h]
  have hp0 : basePath ++ r ≠ [] := by simp [basePath]
  obtain ⟨mb, hlb, hwb, hxb⟩ := baseReady_dir hbase
  obtain ⟨hanc, hfile⟩ := hadm
  have hdir : filepathDir (basePath ++ r) = basePath ++ r.dropLast := by
    unfold filepathDir; exact List.dropLast_append_of_ne_nil _ hr0
  -- the directories
  have hsearch : ∀ a, a <+: basePath → searchableDir fs a = true := by
    intro a ha
    have : a = [] ∨ a = basePath := by
      unfold basePath at ha ⊢
      rcases List.prefix_cons_iff.mp ha with h | ⟨t, h, ht⟩
      · exact Or.inl h
      · rw [List.prefix_nil] at ht; subst ht; exact Or.inr h
    rcases this with h | h
    · subst h; exact searchableDir_root fs
    · subst h; simp [searchableDir, hlb, hxb]
  have hproper : ∀ t, t <+: r.dropLast → basePath ++ t <+: basePath ++ r ∧
      basePath ++ t ≠ basePath ++ r := by
    intro t ht
    refine ⟨(List.prefix_append_right_inj _).mpr (ht.trans (List.dropLast_prefix r)), ?_⟩
    intro h
    have h1 := List.append_cancel_left h
    subst h1
    have h2 := ht.length_le
    have h3 : 0 < t.length := List.length_pos.mpr hr0
    simp at h2
    omega
  have hok : ∀ t, t ≠ [] → t <+: r.dropLast → okDir fs (basePath ++ t) = true := by
    intro t _ ht
    exact hanc _ ((List.mem_inits _ _).mpr (hproper t ht).1) (hproper t ht).2 (by simp [basePath])
  obtain ⟨fs1, hrun, hdirs, hold, hrest⟩ :=
    mkdirFrom_spec umask h7 h6 r.dropLast basePath fs hsearch ⟨mb, hlb, hwb⟩ hok
  have hmk : (osMkdirAll umask fs (filepathDir (basePath ++ r)) 0o755).1 = fs1 := by
    rw [hdir]
    have h1 : osMkdirAll umask fs (basePath ++ r.dropLast) 0o755 =
        mkdirFrom umask 0o755 fs basePath r.dropLast := by
      have hlb' : fsLookup fs ([] ++ ["tmp"]) = some (Node.dir mb) := hlb
      simp only [osMkdirAll, basePath, List.singleton_append, mkdirFrom, hlb']
      rfl
    rw [h1, hrun]
  -- every proper ancestor is a directory the process may write and search
  have hancs : ∀ q, q <+: basePath ++ r → q ≠ basePath ++ r → q ≠ [] →
      ∃ m, fsLookup fs1 q = some (Node.dir m) ∧ canWrite m = true ∧ canSearch m = true := by
    intro q hq hqne hq0
    by_cases hlen : q.length ≤ basePath.length
    · have hqb : q <+: basePath := List.prefix_of_prefix_length_le hq (List.prefix_append _ _) hlen
      have : q = basePath := by
        unfold basePath at hqb ⊢
        rcases List.prefix_cons_iff.mp hqb with h | ⟨t, h, ht⟩
        · exact absurd h hq0
        · rw [List.prefix_nil] at ht; subst ht; exact h
      subst this
      rw [hold _ (by rw [hlb]; simp), hlb]
      exact ⟨mb, rfl, hwb, hxb⟩
    · have hbq : basePath <+: q :=
        List.prefix_of_prefix_length_le (List.prefix_append _ _) hq (by omega)
      obtain ⟨t, rfl⟩ := hbq
      have ht0 : t ≠ [] := by
        intro h; subst h; simp at hlen
      have htr : t <+: r := (List.prefix_append_right_inj _).mp hq
      have htne : t ≠ r := fun h => hqne (by rw [h])
      exact hdirs t ht0 (prefix_dropLast htr htne)
  have hsp : searchable fs1 (basePath ++ r) = true := by
    rw [searchable_iff]
    intro q hq hqne
    by_cases hq0 : q = []
    · subst hq0; exact searchableDir_root fs1
    · obtain ⟨m, hm, _, hx⟩ := hancs q hq hqne hq0
      simp [searchableDir, hm, hx]
  have hlp : fsLookup fs1 (basePath ++ r) = fsLookup fs (basePath ++ r) := by
    apply hrest
    rintro ⟨t, _, ht, h⟩
    exact (hproper t ht).2 h.symm
  have hpar : ∃ m, fsLookup fs1 (filepathDir (basePath ++ r)) = some (Node.dir m) ∧
      canWrite m = true := by
    have h1 : filepathDir (basePath ++ r) <+: basePath ++ r := List.dropLast_prefix _
    have h2 : filepathDir (basePath ++ r) ≠ basePath ++ r := by
      rw [hdir]; exact (hproper _ List.prefix_rfl).2
    have h3 : filepathDir (basePath ++ r) ≠ [] := by rw [hdir]; simp [basePath]
    obtain ⟨m, hm, hw, _⟩ := hancs _ h1 h2 h3
    exact ⟨m, hm, hw⟩
  -- the file
  have hwrite : ∀ (mode : Nat) (fs2 : FS), fs2 = fsSet fs1 (basePath ++ r) (Node.file [] mode) →
      fsLookup (fileWrite fs2 (basePath ++ r) body) (basePath ++ r) =
          some (Node.file body mode) ∧
        ∀ q, q ≠ basePath ++ r →
          fsLookup (fileWrite fs2 (basePath ++ r) body) q = fsLookup fs1 q := by
    intro mode fs2 h2
    have hl2 : fsLookup fs2 (basePath ++ r) = some (Node.file [] mode) := by
      rw [h2]; exact fsLookup_fsSet_self _ _ hp0
    have hw : fileWrite fs2 (basePath ++ r) body =
        fsSet fs2 (basePath ++ r) (Node.file body mode) := by
      simp [fileWrite, hl2]
    rw [hw]
    refine ⟨fsLookup_fsSet_self _ _ hp0, fun q hq => ?_⟩
    rw [fsLookup_fsSet_ne _ _ hp0 hq, h2, fsLookup_fsSet_ne _ _ hp0 hq]
  have hfinish : ∀ (mode : Nat) (fs2 : FS), fs2 = fsSet fs1 (basePath ++ r) (Node.file [] mode) →
      osCreate umask fs1 (basePath ++ r) = some fs2 →
      ∃ fs2 mode, osCreate umask fs1 (basePath ++ r) = some fs2 ∧
        fsLookup (fileWrite fs2 (basePath ++ r) body) (basePath ++ r) =
          some (Node.file body mode) ∧
        (∀ q, q ≠ basePath ++ r → fsLookup fs q ≠ none →
          fsLookup (fileWrite fs2 (basePath ++ r) body) q = fsLookup fs q) ∧
        (∀ q, ¬ q <+: basePath ++ r →
          fsLookup (fileWrite fs2 (basePath ++ r) body) q = fsLookup fs q) ∧
        (∀ q, q <+: basePath ++ r → q ≠ basePath ++ r → q ≠ [] →
          ∃ m, fsLookup (fileWrite fs2 (basePath ++ r) body) q = some (Node.dir m) ∧
            canWrite m = true ∧ canSearch m = true) := by
    intro mode fs2 h2 hc
    obtain ⟨hself, hother⟩ := hwrite mode fs2 h2
    refine ⟨fs2, mode, hc, hself, ?_, ?_, ?_⟩
    · intro q hq hex
      rw [hother q hq, hold q hex]
    · intro q hq
      have hqne : q ≠ basePath ++ r := fun h => hq (h ▸ List.prefix_rfl)
      rw [hother q hqne]
      apply hrest
      rintro ⟨t, _, ht, h⟩
      exact hq (h ▸ (hproper t ht).1)
    · intro q hq hqne hq0
      rw [hother q hqne]
      exact hancs q hq hqne hq0
  rw [hmk]
  cases hl : fsLookup fs (basePath ++ r) with
  | none =>
    obtain ⟨m, hm, hw⟩ := hpar
    apply hfinish (newMode umask 0o666) _ rfl
    simp [osCreate, hsp, hlp, hl, hm, hw]
  | some n =>
    cases n with
    | dir m => simp [okFile, hl] at hfile
    | file d m =>
      have hrw : (canRead m && canWrite m) = true := by simpa [okFile, hl] using hfile
      apply hfinish m _ rfl
      simp only [osCreate, hsp, hlp, hl, if_true, hrw]

/-- Extracting file entries whose targets are distinct, strictly below the base
directory and not below one another, on a file system with room for each: no
creation fails, every target holds the content of its entry afterwards, and
the content of every other path is as before. -/
theorem extract_all (umask : Nat) (h7 : umask.testBit 7 = false) (h6 : umask.testBit 6 = false)
    (es : List (Header × Bytes)) :
    ∀ (fs : FS) (ending : Option String), baseReady fs = true →
      (∀ x ∈ es, x.1.Typeflag ≠ TypeDir) →
      (∀ x ∈ es, basePath <+: target x ∧ target x ≠ basePath) →
      (es.map target).Nodup →
      (∀ x ∈ es, ∀ y ∈ es, target x <+: target y → target x = target y) →
      (∀ x ∈ es, admits fs (target x)) →
      ∃ fs', extractLoop umask es ending fs = (fs', ending) ∧
        (∀ x ∈ es, fileContent fs' (target x) = some x.2) ∧
        ∀ q, q ∉ es.map target → fileContent fs' q = fileContent fs q := by
  induction es with
  | nil => intro fs ending _ _ _ _ _ _; exact ⟨fs, rfl, by simp, fun _ _ => rfl⟩
  | cons x t ih =>
    intro fs ending hbase hreg hbelow hnd hflat hadm
    obtain ⟨hdr, body⟩ := x
    have hp := hbelow (hdr, body) (by simp)
    obtain ⟨fs2, mode, hcreate, hself, hold, hrest, hdirs⟩ :=
      extract_one umask h7 h6 fs (target (hdr, body)) body hp.1 hp.2 hbase
        (hadm (hdr, body) (by simp))
    have hnd' : target (hdr, body) ∉ t.map target ∧ (t.map target).Nodup := by
      simpa using hnd
    have hbase' : baseReady (fileWrite fs2 (target (hdr, body)) body) = true := by
      obtain ⟨mb, hlb, _, _⟩ := baseReady_dir hbase
      unfold baseReady at hbase ⊢
      rw [hold basePath (fun h => hp.2 h.symm) (by rw [hlb]; simp)]
      exact hbase
    have hadm' : ∀ y ∈ t, admits (fileWrite fs2 (target (hdr, body)) body) (target y) := by
      intro y hy
      have hne : target y ≠ target (hdr, body) := by
        intro h; exact hnd'.1 (h ▸ List.mem_map_of_mem target hy)
      obtain ⟨hanc, hfile⟩ := hadm y (by simp [hy])
      constructor
      · intro q hq hqne hq0
        by_cases hqp : q = target (hdr, body)
        · exact absurd (hflat (hdr, body) (by simp) y (by simp [hy])
            (hqp ▸ (List.mem_inits _ _).mp hq)) (fun h => hne h.symm)
        · cases hl : fsLookup fs q with
          | some n =>
            have := hanc q hq hqne hq0
            unfold okDir at this ⊢
            rw [hold q hqp (by rw [hl]; simp)]
            exact this
          | none =>
            by_cases hin : q <+: target (hdr, body)
            · obtain ⟨m, hm, hw, hx⟩ := hdirs q hin hqp hq0
              simp [okDir, hm, hw, hx]
            · simp [okDir, hrest q hin, hl]
      · cases hl : fsLookup fs (target y) with
        | some n =>
          unfold okFile at hfile ⊢
          rw [hold _ hne (by rw [hl]; simp)]
          exact hfile
        | none =>
          have hin : ¬ target y <+: target (hdr, body) := by
            intro h
            exact hne (hflat y (by simp [hy]) (hdr, body) (by simp) h)
          simp [okFile, hrest _ hin, hl]
    obtain ⟨fs', hrun, hfiles, hothers⟩ := ih (fileWrite fs2 (target (hdr, body)) body) ending
      hbase' (fun y hy => hreg y (by simp [hy])) (fun y hy => hbelow y (by simp [hy])) hnd'.2
      (fun a ha b hb => hflat a (by simp [ha]) b (by simp [hb])) hadm'
    refine ⟨fs', ?_, ?_, ?_⟩
    · have hflag : ¬ hdr.Typeflag = TypeDir := hreg (hdr, body) (by simp)
      have ht : filepathJoin basePath hdr.Name = target (hdr, body) := rfl
      simp only [extractLoop, hflag, if_false, ht, hcreate]
      exact hrun
    · intro y hy
      rcases List.mem_cons.mp hy with h | h
      · subst h
        rw [hothers _ hnd'.1]
        unfold fileContent; rw [hself]
      · exact hfiles y h
    · intro q hq
      have hqp : q ≠ target (hdr, body) := by
        intro h; apply hq; simp [h]
      have hqt : q ∉ t.map target := by
        intro h; apply hq; simp only [List.map_cons, List.mem_cons]; exact Or.inr h
      rw [hothers q hqt]
      unfold fileContent
      cases hl : fsLookup fs q with
      | some n => rw [hold q hqp (by rw [hl]; simp), hl]
      | none =>
        by_cases hin : q <+: target (hdr, body)
        · by_cases hq0 : q = []
          · subst hq0; simp [fsLookup] at hl
          · obtain ⟨m, hm, _, _⟩ := hdirs q hin hqp hq0
            rw [hm]
        · rw [hrest q hin, hl]

/-- C6, amended: an invalid compressed frame makes the restore return an error
and leaves the file system exactly as it was.  When the tar reader reports an
error after it has handed out entries, the restore returns an error too, and
what was extracted stays: if those entries are file entries with distinct
targets, cleaned paths strictly below the base directory, none below another,
and the file system has room for them, the restore returns the reader's error
and every target holds the content of its entry, the content of all other
paths being as before. -/
theorem restore_decode_failure (env : Env) (body : Bytes) (fs : FS) :
    (∀ ze, env.zstdReadAll body = .error ze →
      ∃ msg, rehydrateFromSingleFile env (.ok body) fs = (fs, some msg)) ∧
    (∀ decoded es e, env.zstdReadAll body = .ok decoded → env.tarRead decoded = (es, some e) →
      (rehydrateFromSingleFile env (.ok body) fs).2 ≠ none) ∧
    (∀ decoded es e, env.zstdReadAll body = .ok decoded → env.tarRead decoded = (es, some e) →
      env.umask.testBit 7 = false → env.umask.testBit 6 = false → baseReady fs = true →
      (∀ x ∈ es, x.1.Typeflag ≠ TypeDir ∧ underBase (target x)) →
      (es.map target).Nodup →
      (∀ x ∈ es, ∀ y ∈ es, target x <+: target y → target x = target y) →
      (∀ x ∈ es, admits fs (target x)) →
      ∃ fs', rehydrateFromSingleFile env (.ok body) fs = (fs', some e) ∧
        (∀ x ∈ es, fileContent fs' (target x) = some x.2) ∧
        ∀ q, q ∉ es.map target → fileContent fs' q = fileContent fs q) := by
  refine ⟨?_, ?_, ?_⟩
  · intro ze he
    cases ze with
    | newReader e =>
      exact ⟨"failed to initialize ZSTD reader: " ++ e, by simp [rehydrateFromSingleFile, he]⟩
    | readAll e =>
      exact ⟨"failed to decompress: " ++ e, by simp [rehydrateFromSingleFile, he]⟩
  · intro decoded es e hz ht
    simp only [rehydrateFromSingleFile, hz, ht]
    exact extractLoop_error env.umask es e fs
  · intro decoded es e hz ht h7 h6 hbase hes hnd hflat hroom
    simp only [rehydrateFromSingleFile, hz, ht]
    exact extract_all env.umask h7 h6 es fs (some e) hbase (fun x hx => (hes x hx).1)
      (fun x hx => ⟨(hes x hx).2.1, (hes x hx).2.2.1⟩) hnd hflat hroom

/-- C6, amended, at a frame without the magic number and at an archive that is
no tar header after its first entry. -/
theorem restore_decode_failure_witness :
    (∃ msg, rehydrateFromSingleFile demoEnv (.ok [41, 0]) [(["tmp"], Node.dir 0o777)] =
      ([(["tmp"], Node.dir 0o777)], some msg)) ∧
    (∃ fs', rehydrateFromSingleFile demoEnv (.ok [40, 1, 48, 420, 1, 1, 1, 97, 7, 9])
        [(["tmp"], Node.dir 0o777)] = (fs', some "invalid tar header") ∧
      (∀ x ∈ [((⟨["a"], 48, 420, 1⟩ : Header), ([7] : Bytes))],
        fileContent fs' (target x) = some x.2) ∧
      ∀ q, q ∉ [((⟨["a"], 48, 420, 1⟩ : Header), ([7] : Bytes))].map target →
        fileContent fs' q = fileContent [(["tmp"], Node.dir 0o777)] q) :=
  ⟨(restore_decode_failure demoEnv [41, 0] [(["tmp"], Node.dir 0o777)]).1 _ rfl,
   (restore_decode_failure demoEnv [40, 1, 48, 420, 1, 1, 1, 97, 7, 9]
      [(["tmp"], Node.dir 0o777)]).2.2
      [1, 48, 420, 1, 1, 1, 97, 7, 9] [(⟨["a"], 48, 420, 1⟩, [7])] "invalid tar header"
      rfl (by decide) (by decide) (by decide) (by decide) (by decide) (by decide) (by decide)
      (by decide)⟩

/-! ## Paths -/

theorem relAux_append (b r : Path) : relAux b (b ++ r) = r := by
  induction b with
  | nil => cases r <;> simp [relAux]
  | cons x xs ih => simp [relAux, ih]

theorem foldl_cleanStep (r : List String) (h : ∀ c ∈ r, validComp c) :
    ∀ b : Path, r.foldl cleanStep b = b ++ r := by
  induction r with
  | nil => intro b; simp
  | cons c t ih =>
    intro b
    obtain ⟨h1, h2, h3, _⟩ := h c (by simp)
    have hs : cleanStep b c = b ++ [c] := by simp [cleanStep, h1, h2, h3]
    rw [List.foldl_cons, hs, ih (fun x hx => h x (by simp [hx]))]
    simp

/-- For a cleaned path strictly below the base, `filepath.Rel` gives the
components below the base, and `filepath.Join` puts them back. -/
theorem join_rel (p : Path) (h : underBase p) :
    filepathJoin basePath (filepathRel basePath p) = p ∧ filepathRel basePath p ≠ [] ∧
      ∀ c ∈ filepathRel basePath p, validComp c := by
  obtain ⟨⟨r, hr⟩, hne, hclean, _⟩ := h
  subst hr
  have hr0 : r ≠ [] := by
    intro h0; apply hne; simp [h0]
  have hrc : ∀ c ∈ r, validComp c := fun c hc => hclean c (by simp [hc])
  have hrel : filepathRel basePath (basePath ++ r) = r := by
    unfold filepathRel
    rw [relAux_append]
    cases r with
    | nil => exact absurd rfl hr0
    | cons a t => rfl
  rw [hrel]
  exact ⟨foldl_cleanStep r hrc basePath, hr0, hrc⟩

/-! ## The toy library gives back what was written -/

theorem takeN_append (xs ys : List Nat) : takeN xs.length (xs ++ ys) = some (xs, ys) := by
  induction xs with
  | nil => cases ys <;> rfl
  | cons a t ih => simp [takeN, ih]

theorem readComps_writeComps (name : List String) (rest : List Nat) :
    readComps name.length
        ((name.flatMap fun c => c.data.length :: c.data.map Char.toNat) ++ rest) =
      some (name, rest) := by
  induction name with
  | nil => cases rest <;> rfl
  | cons c t ih =>
    have hlen : c.data.length = (c.data.map Char.toNat).length := by simp
    have hback : String.mk ((c.data.map Char.toNat).map Char.ofNat) = c := by
      have : (c.data.map Char.toNat).map Char.ofNat = c.data := by
        rw [List.map_map]
        conv => rhs; rw [← List.map_id c.data]
        apply List.map_congr_left
        intro a _
        simp
      rw [this]
    have heq : ((c :: t).flatMap fun c => c.data.length :: c.data.map Char.toNat) ++ rest =
        c.data.length :: (c.data.map Char.toNat ++
          ((t.flatMap fun c => c.data.length :: c.data.map Char.toNat) ++ rest)) := by
      simp
    rw [heq, List.length_cons, readComps, hlen, takeN_append]
    simp only [ih, Option.map_some', hback]

theorem demoTarReadAux_write (es : List (Header × Bytes)) :
    ∀ fuel, es.length < fuel → (∀ x ∈ es, plainEntry x) →
      demoTarReadAux fuel (demoTarWrite es) = (es.map fun x => (promote x.1, x.2), none) := by
  induction es with
  | nil =>
    intro fuel hf _
    cases fuel with
    | zero => simp at hf
    | succ f => rfl
  | cons e t ih =>
    intro fuel hf hplain
    cases fuel with
    | zero => simp at hf
    | succ f =>
      obtain ⟨hdr, body⟩ := e
      obtain ⟨hflag, hsize, _, _⟩ := hplain (hdr, body) (by simp)
      have hrest := ih f (by simpa using hf) (fun x hx => hplain x (by simp [hx]))
      have hw : demoTarWrite ((hdr, body) :: t) =
          1 :: (promote hdr).Typeflag :: hdr.Mode :: hdr.Size :: hdr.Name.length ::
            ((hdr.Name.flatMap fun c => c.data.length :: c.data.map Char.toNat) ++
              (body ++ demoTarWrite t)) := by
        simp [demoTarWrite, writeComps]
      have hsize' : hdr.Size = body.length := hsize
      have hpro : promote hdr = ⟨hdr.Name, TypeReg, hdr.Mode, body.length⟩ := by
        have hflag' : hdr.Typeflag = TypeRegA := hflag
        unfold promote; simp [hflag', hsize']
      rw [hw, demoTarReadAux]
      simp only [readComps_writeComps]
      rw [hsize', takeN_append]
      dsimp only
      rw [hrest]
      simp only [List.map_cons, hpro]

theorem length_le_demoTarWrite (es : List (Header × Bytes)) :
    es.length < (demoTarWrite es).length + 1 := by
  induction es with
  | nil => simp [demoTarWrite]
  | cons e t ih =>
    simp only [demoTarWrite, List.flatMap_cons, List.length_append, List.length_cons,
      List.length_nil] at ih ⊢
    omega

theorem demoTarRead_write (es : List (Header × Bytes)) (h : ∀ x ∈ es, plainEntry x) :
    demoEnv.tarRead (demoEnv.tarWrite es) = (es.map fun x => (promote x.1, x.2), none) :=
  demoTarReadAux_write es _ (length_le_demoTarWrite es) h

theorem demoZstd_round (b : Bytes) : demoEnv.zstdReadAll (demoEnv.EncodeAll b) = .ok b := rfl

/-! ## The round trip -/

theorem promoted_entries (env : Env) (m : List (Path × Bytes)) :
    ((archiveEntries env m).map fun x => (promote x.1, x.2)) = (env.mapRange m).map toEntry := by
  simp only [archiveEntries, List.map_map]
  apply List.map_congr_left
  intro e _
  simp [toEntry, promote]

/-- C2, as stated, fails: the watcher stages `/tmp/a/b` and then, `/tmp/a` having
become a file in the meantime, `/tmp/a` (both events qualify, both keys are
distinct cleaned paths strictly below the base).  The one flush that follows
uploads both entries; the restore of that object on an empty base directory
makes `/tmp/a` a directory for `b`, cannot create the file `/tmp/a`, and
returns the error of `os.Create`. -/
theorem nested_paths_break_round_trip :
    (∀ e ∈ [(⟨0, opWrite, ["tmp", "a", "b"],
          [(["tmp"], Node.dir 0o777), (["tmp", "a"], Node.dir 0o755),
            (["tmp", "a", "b"], Node.file [2] 0o644)]⟩ : Event),
        ⟨500000000, opCreate, ["tmp", "a"],
          [(["tmp"], Node.dir 0o777), (["tmp", "a"], Node.file [1] 0o644)]⟩],
      qualifying e ∧ underBase e.Name) ∧
    (watchLoop demoEnv (fun _ => true) ⟨[], none, [], none, [], []⟩
      [.event ⟨0, opWrite, ["tmp", "a", "b"],
          [(["tmp"], Node.dir 0o777), (["tmp", "a"], Node.dir 0o755),
            (["tmp", "a", "b"], Node.file [2] 0o644)]⟩,
        .event ⟨500000000, opCreate, ["tmp", "a"],
          [(["tmp"], Node.dir 0o777), (["tmp", "a"], Node.file [1] 0o644)]⟩]).stagedFiles =
      [(["tmp", "a"], [1]), (["tmp", "a", "b"], [2])] ∧
    (quiesce demoEnv (fun _ => true)
      (watchLoop demoEnv (fun _ => true) ⟨[], none, [], none, [], []⟩
        [.event ⟨0, opWrite, ["tmp", "a", "b"],
            [(["tmp"], Node.dir 0o777), (["tmp", "a"], Node.dir 0o755),
              (["tmp", "a", "b"], Node.file [2] 0o644)]⟩,
          .event ⟨500000000, opCreate, ["tmp", "a"],
            [(["tmp"], Node.dir 0o777), (["tmp", "a"], Node.file [1] 0o644)]⟩])).remote =
      some (demoEnv.EncodeAll (demoEnv.tarWrite
        [(⟨["a", "b"], 0, 0o644, 1⟩, [2]), (⟨["a"], 0, 0o644, 1⟩, [1])])) ∧
    rehydrateFromSingleFile demoEnv
        (.ok (demoEnv.EncodeAll (demoEnv.tarWrite
          [(⟨["a", "b"], 0, 0o644, 1⟩, [2]), (⟨["a"], 0, 0o644, 1⟩, [1])])))
        [(["tmp"], Node.dir 0o777)] =
      ([(["tmp", "a", "b"], Node.file [2] 0o644), (["tmp", "a"], Node.dir 0o755),
        (["tmp"], Node.dir 0o777)], some "create") := by
  decide

/-- C2, amended: round trip of the snapshot codec.  Let the keys of the staging
map be distinct cleaned paths strictly below the base directory, none of them
below another; let zstd give back what was encoded and tar what was written
as regular files; let the umask leave the owner's write and search bits, the
base directory be one the process may write and search, and the file system
`fs0` of the restore have room for the files.  Then the object a successful
flush uploads decodes to one regular entry per staged path, named by the path
relative to the base and holding the staged content; joining that name to the
base gives the path back; and the restore returns no error and leaves every
staged path a file with the staged content, and the content of every other
path as it was. -/
theorem snapshot_round_trip (env : Env) (s : State) (now : Nat) (fs0 : FS)
    (hperm : (env.mapRange s.stagedFiles).Perm s.stagedFiles)
    (hz : ∀ b, env.zstdReadAll (env.EncodeAll b) = .ok b)
    (ht : ∀ es, (∀ x ∈ es, plainEntry x) →
      env.tarRead (env.tarWrite es) = (es.map fun x => (promote x.1, x.2), none))
    (hw : env.umask.testBit 7 = false) (hx : env.umask.testBit 6 = false)
    (hne : s.stagedFiles ≠ [])
    (hkeys : (s.stagedFiles.map Prod.fst).Nodup)
    (hunder : ∀ e ∈ s.stagedFiles, underBase e.1)
    (hflat : ∀ e ∈ s.stagedFiles, ∀ e' ∈ s.stagedFiles, e.1 <+: e'.1 → e.1 = e'.1)
    (hbase : baseReady fs0 = true)
    (hroom : ∀ e ∈ s.stagedFiles, admits fs0 e.1) :
    ∃ obj decoded fs1,
      (flushStagedToS3 env true now s).remote = some obj ∧
      env.zstdReadAll obj = .ok decoded ∧
      (env.tarRead decoded).2 = none ∧
      ((env.tarRead decoded).1.map fun x => (x.1.Name, x.1.Typeflag, x.2)).Perm
        (s.stagedFiles.map fun e => (filepathRel basePath e.1, TypeReg, e.2)) ∧
      (∀ e ∈ s.stagedFiles, filepathJoin basePath (filepathRel basePath e.1) = e.1) ∧
      rehydrateFromSingleFile env (.ok obj) fs0 = (fs1, none) ∧
      (∀ e ∈ s.stagedFiles, fileContent fs1 e.1 = some e.2) ∧
      ∀ q, q ∉ s.stagedFiles.map Prod.fst → fileContent fs1 q = fileContent fs0 q := by
  have hmem : ∀ e, e ∈ env.mapRange s.stagedFiles ↔ e ∈ s.stagedFiles := fun e => hperm.mem_iff
  have hplain : ∀ x ∈ archiveEntries env s.stagedFiles, plainEntry x := by
    intro x hx'
    simp only [archiveEntries, List.mem_map] at hx'
    obtain ⟨e, he, rfl⟩ := hx'
    obtain ⟨_, h0, hc⟩ := join_rel e.1 (hunder e ((hmem e).mp he))
    exact ⟨rfl, rfl, h0, hc⟩
  have hread := ht _ hplain
  have htarget : ∀ e ∈ env.mapRange s.stagedFiles, target (toEntry e) = e.1 :=
    fun e he => (join_rel e.1 (hunder e ((hmem e).mp he))).1
  have htargets : ((env.mapRange s.stagedFiles).map toEntry).map target =
      (env.mapRange s.stagedFiles).map Prod.fst := by
    rw [List.map_map]
    exact List.map_congr_left htarget
  obtain ⟨fs1, hrun, hcontent, hrest⟩ := extract_all env.umask hw hx
    ((env.mapRange s.stagedFiles).map toEntry) fs0 none hbase
    (by
      intro x hx'
      obtain ⟨e, _, rfl⟩ := List.mem_map.mp hx'
      show TypeReg ≠ TypeDir
      decide)
    (by
      intro x hx'
      obtain ⟨e, he, rfl⟩ := List.mem_map.mp hx'
      rw [htarget e he]
      exact ⟨(hunder e ((hmem e).mp he)).1, (hunder e ((hmem e).mp he)).2.1⟩)
    (by rw [htargets]; exact (hperm.map Prod.fst).nodup_iff.mpr hkeys)
    (by
      intro x hx' y hy'
      obtain ⟨a, ha, rfl⟩ := List.mem_map.mp hx'
      obtain ⟨b, hb, rfl⟩ := List.mem_map.mp hy'
      rw [htarget a ha, htarget b hb]
      exact hflat a ((hmem a).mp ha) b ((hmem b).mp hb))
    (by
      intro x hx'
      obtain ⟨e, he, rfl⟩ := List.mem_map.mp hx'
      rw [htarget e he]
      exact hroom e ((hmem e).mp he))
  refine ⟨env.EncodeAll (env.tarWrite (archiveEntries env s.stagedFiles)),
    env.tarWrite (archiveEntries env s.stagedFiles), fs1, ?_, hz _, ?_, ?_, ?_, ?_, ?_, ?_⟩
  · rw [flush_nonempty env true now s hne]; rfl
  · rw [hread]
  · rw [hread, promoted_entries]
    simp only [List.map_map]
    exact hperm.map _
  · intro e he
    exact (join_rel e.1 (hunder e he)).1
  · simp only [rehydrateFromSingleFile, hz, hread, promoted_entries]
    exact hrun
  · intro e he
    have := hcontent (toEntry e) (List.mem_map_of_mem toEntry ((hmem e).mpr he))
    rw [htarget e ((hmem e).mpr he)] at this
    exact this
  · intro q hq
    apply hrest
    rw [htargets]
    intro h
    exact hq ((hperm.map Prod.fst).mem_iff.mp h)

/-- C2, amended, at the files `/tmp/a/b` and `/tmp/c`, restored on a base
directory that is empty. -/
theorem snapshot_round_trip_witness :
    ∃ obj decoded fs1,
      (flushStagedToS3 demoEnv true 5
        ⟨[(["tmp", "a", "b"], [1, 2]), (["tmp", "c"], [])], none, [], none, [], []⟩).remote =
          some obj ∧
      demoEnv.zstdReadAll obj = .ok decoded ∧
      (demoEnv.tarRead decoded).2 = none ∧
      ((demoEnv.tarRead decoded).1.map fun x => (x.1.Name, x.1.Typeflag, x.2)).Perm
        ([(["tmp", "a", "b"], [1, 2]), (["tmp", "c"], ([] : Bytes))].map
          fun e => (filepathRel basePath e.1, TypeReg, e.2)) ∧
      (∀ e ∈ [(["tmp", "a", "b"], [1, 2]), (["tmp", "c"], ([] : Bytes))],
        filepathJoin basePath (filepathRel basePath e.1) = e.1) ∧
      rehydrateFromSingleFile demoEnv (.ok obj) [(["tmp"], Node.dir 0o777)] = (fs1, none) ∧
      (∀ e ∈ [(["tmp", "a", "b"], [1, 2]), (["tmp", "c"], ([] : Bytes))],
        fileContent fs1 e.1 = some e.2) ∧
      ∀ q, q ∉ [(["tmp", "a", "b"], [1, 2]), (["tmp", "c"], ([] : Bytes))].map Prod.fst →
        fileContent fs1 q = fileContent [(["tmp"], Node.dir 0o777)] q :=
  snapshot_round_trip demoEnv
    ⟨[(["tmp", "a", "b"], [1, 2]), (["tmp", "c"], [])], none, [], none, [], []⟩ 5
    [(["tmp"], Node.dir 0o777)] (List.reverse_perm _) demoZstd_round demoTarRead_write
    (by decide) (by decide) (by decide) (by decide) (by decide) (by decide) (by decide)
    (by decide)

end Icecache
